import Mathlib

namespace Seaflowpy

/-!
Verification of the seaflowpy core against its natural-language specification.

Part 1: the LabVIEW binary event-file codec, a shallow embedding of
`read_labview` / `read_evt_labview` from `scripts/perftest-nopandas.py`.
A byte stream is a `List Nat` (each entry one byte, value < 256 where it
matters).  The numpy uint16 view is little-endian; cells of the final
matrix are modelled as `Nat`: the source converts each uint16 cell to
float64 (`astype(np.float64)`), a conversion that is exact on `[0, 65535]`,
so the numeric content is fully captured by the natural number.
-/

/-- Failure modes of `read_labview`, one constructor per distinct
`errors.FileError` raised by the source (messages elided). -/
inductive DecodeError where
  | emptyFile
  | truncatedHeader
  | noData
  | byteCountMismatch (expected found : Nat)
  deriving DecidableEq, Repr

/-- Little-endian unsigned 32-bit value of four bytes, as
`np.frombuffer(buff, dtype="uint32")` reads the 4-byte header. -/
def le32 (b0 b1 b2 b3 : Nat) : Nat :=
  b0 + 256 * b1 + 65536 * b2 + 16777216 * b3

/-- Little-endian uint16 at uint16-index `k` of the payload, as the
`np.frombuffer(buff, dtype="uint16")` view provides it.  Out-of-range
reads default to 0; the codec only evaluates in-range indices. -/
def u16At (payload : List Nat) (k : Nat) : Nat :=
  payload.getD (2 * k) 0 + 256 * payload.getD (2 * k + 1) 0

/-- The event matrix built by `np.reshape(events, [rowcnt, colcnt])`
followed by `np.delete(events, [0, 1], 1)`: row `i`, kept column `j`
is the uint16 at flat index `i * (columns + 2) + (j + 2)`. -/
def labviewMatrix (columns rowcnt : Nat) (payload : List Nat) : List (List Nat) :=
  (List.range rowcnt).map fun i =>
    (List.range columns).map fun j => u16At payload (i * (columns + 2) + (j + 2))

/-- Shallow embedding of `read_labview(path, columns)`.  `columns` is the
number of measurement columns (`len(columns)` in the source); each row of
the payload carries `columns + 2` uint16 values.  `fh.read(4)` on a
stream shorter than 4 bytes returns what is available, so zero bytes is
`EmptyFile` and one to three bytes is the invalid-header error.  The
payload read plus the trailing-data loop together consume the whole rest
of the stream, so `found_bytes = len(buff) + extra_bytes` is exactly the
stream length minus the 4 header bytes. -/
def readLabview (columns : Nat) (s : List Nat) : Except DecodeError (List (List Nat)) :=
  match s with
  | [] => .error .emptyFile
  | [_] | [_, _] | [_, _, _] => .error .truncatedHeader
  | b0 :: b1 :: b2 :: b3 :: payload =>
    let rowcnt := le32 b0 b1 b2 b3
    if rowcnt = 0 then .error .noData
    else
      let expected := rowcnt * (columns + 2) * 2
      if payload.length ≠ expected then .error (.byteCountMismatch expected payload.length)
      else .ok (labviewMatrix columns rowcnt payload)

/-!
Part 2: the filename parser and file-identity subsystem, a shallow
embedding of `seaflowpy/seaflowfile.py`.  Python strings are modelled as
`List Char` so that the splitting and slicing done by the source can be
reasoned about structurally.  The regexes of the source are fixed finite
grammars and are translated into decidable structural matches.
-/

/-- Python strings, modelled as their character lists. -/
abbrev Str := List Char

/-- Python's `str.split(sep)` for a one-character separator:
`"".split(".") == [""]`, separators at the ends produce empty parts. -/
def splitOnC (sep : Char) : Str → List Str
  | [] => [[]]
  | c :: rest =>
    let r := splitOnC sep rest
    if c = sep then [] :: r
    else (c :: r.headD []) :: r.tail

/-- Python's `os.path.basename`: everything after the last slash. -/
def basename (p : Str) : Str := (splitOnC '/' p).getLastD []

/-- Modelled from the spec: `util.splitpath` is not part of the sources
given here (only its caller `parse_path` is).  The spec says identity uses
the leaf name and the immediate parent directory of the `/`-separated
path, so the model splits the path on `/` and drops empty components. -/
def splitpath (p : Str) : List Str :=
  (splitOnC '/' p).filter (fun part => !part.isEmpty)

/-- Result of `parse_path`: the `dayofyear` parent directory (empty when
absent or not bucket-shaped) and the leaf file name. -/
structure PathParts where
  dayofyear : Str
  file : Str
  deriving DecidableEq, Repr

/-- Structural translation of `dayofyear_re`, the bucket-directory regex
`^\d{1,4}_\d{1,3}$`: one underscore separating one-to-four digits from
one-to-three digits. -/
def matchDayofyearDir (s : Str) : Bool :=
  match splitOnC '_' s with
  | [a, b] =>
    (decide (1 ≤ a.length) && decide (a.length ≤ 4) && a.all Char.isDigit) &&
    (decide (1 ≤ b.length) && decide (b.length ≤ 3) && b.all Char.isDigit)
  | _ => false

/-- Shallow embedding of `parse_path`: the leaf name is the last path
component, and the parent component is kept as `dayofyear` only when it
matches the bucket grammar. -/
def parse_path (file_path : Str) : PathParts :=
  let parts := splitpath file_path
  let file := parts.getLastD []
  if parts.length > 1 then
    let parent := parts.getD (parts.length - 2) []
    if matchDayofyearDir parent then ⟨parent, file⟩ else ⟨[], file⟩
  else ⟨[], file⟩

/-- Shallow embedding of `remove_ext`: drop every `.`-suffix, but keep
`.evt` when the base is a bare integer (`re.match(r'^\d+$', ...)`). -/
def remove_ext (filename : Str) : Str :=
  let file_parts := splitOnC '.' filename
  let noext := file_parts.headD []
  if decide (file_parts.length > 1) && (file_parts.getD 1 [] == "evt".toList) &&
      (decide (1 ≤ noext.length) && noext.all Char.isDigit) then
    noext ++ ".evt".toList
  else noext

/-- Structural translation of `old_file_re = ^\d+\.evt$`: one or more
digits followed by the literal `.evt`. -/
def matchOldFile (l : Str) : Bool :=
  decide (5 ≤ l.length) && (l.drop (l.length - 4) == ".evt".toList) &&
    (l.take (l.length - 4)).all Char.isDigit

/-- Fields captured by `new_file_re` from a new-style timestamp name. -/
structure NewStamp where
  year : Nat
  month : Nat
  day : Nat
  hour : Nat
  minute : Nat
  second : Nat
  tzNeg : Bool
  tzh : Nat
  tzm : Nat
  deriving DecidableEq, Repr

/-- Numeric value of a digit character. -/
def digVal (c : Char) : Nat := c.toNat - 48

/-- Structural translation of
`new_file_re = ^(\d{4}-\d{2}-\d{2})T(\d{2})-(\d{2})-(\d{2})([+-]\d{2})-(\d{2})$`,
split in two: the per-character condition, then the 25-character match
returning the captured groups as a `NewStamp` (`none` when the regex does
not match). -/
def newShapeCond (y1 y2 y3 y4 s1 mo1 mo2 s2 d1 d2 t h1 h2 s3 mi1 mi2 s4 se1 se2 sg zh1 zh2 s5 zm1 zm2 : Char) : Bool :=
  y1.isDigit && y2.isDigit && y3.isDigit && y4.isDigit && (s1 == '-') &&
    mo1.isDigit && mo2.isDigit && (s2 == '-') && d1.isDigit && d2.isDigit &&
    (t == 'T') && h1.isDigit && h2.isDigit && (s3 == '-') && mi1.isDigit &&
    mi2.isDigit && (s4 == '-') && se1.isDigit && se2.isDigit &&
    ((sg == '+') || (sg == '-')) && zh1.isDigit && zh2.isDigit &&
    (s5 == '-') && zm1.isDigit && zm2.isDigit

def newShape? : Str → Option NewStamp
  | [y1, y2, y3, y4, s1, mo1, mo2, s2, d1, d2, t, h1, h2, s3, mi1, mi2, s4,
     se1, se2, sg, zh1, zh2, s5, zm1, zm2] =>
    if newShapeCond y1 y2 y3 y4 s1 mo1 mo2 s2 d1 d2 t h1 h2 s3 mi1 mi2 s4 se1 se2 sg zh1 zh2 s5 zm1 zm2 then
      some { year := 1000 * digVal y1 + 100 * digVal y2 + 10 * digVal y3 + digVal y4
             month := 10 * digVal mo1 + digVal mo2
             day := 10 * digVal d1 + digVal d2
             hour := 10 * digVal h1 + digVal h2
             minute := 10 * digVal mi1 + digVal mi2
             second := 10 * digVal se1 + digVal se2
             tzNeg := sg == '-'
             tzh := 10 * digVal zh1 + digVal zh2
             tzm := 10 * digVal zm1 + digVal zm2 }
    else none
  | _ => none

/-- Gregorian leap-year rule, as `datetime` implements it. -/
def isLeap (y : Nat) : Bool := (y % 4 == 0 && y % 100 != 0) || y % 400 == 0

def daysInMonth (y m : Nat) : Nat :=
  if m = 2 then (if isLeap y then 29 else 28)
  else if m = 4 ∨ m = 6 ∨ m = 9 ∨ m = 11 then 30
  else 31

/-- Day of year (1-based) of the naive calendar fields, exactly what
`dt.strftime('%j')` prints: the UTC offset plays no role. -/
def dayOfYearNum (st : NewStamp) : Nat :=
  (((List.range (st.month - 1)).map fun i => daysInMonth st.year (i + 1)).sum) + st.day

/-- Validity conditions under which `datetime.datetime.fromisoformat`
accepts the string rebuilt from the regex groups: calendar-valid date
with year at least `MINYEAR = 1`, in-range time fields, and a UTC offset
strictly below 24 hours (`datetime.timezone` accepts any such
`timedelta`, so offset minutes up to 99 are fine as long as the total
stays under a day). -/
def isoValid (st : NewStamp) : Bool :=
  decide (1 ≤ st.year) &&
  decide (1 ≤ st.month) && decide (st.month ≤ 12) &&
  decide (1 ≤ st.day) && decide (st.day ≤ daysInMonth st.year st.month) &&
  decide (st.hour ≤ 23) && decide (st.minute ≤ 59) && decide (st.second ≤ 59) &&
  decide (st.tzh * 60 + st.tzm < 24 * 60)

/-- Shallow embedding of `date_from_filename`: re-derive the extension-free
base of the argument, match the new-style regex, and accept the timestamp
only when `fromisoformat` would; `none` stands for the `ValueError`. -/
def date_from_filename (filename : Str) : Option NewStamp :=
  let noext := remove_ext (basename filename)
  match newShape? noext with
  | some st => if isoValid st then some st else none
  | none => none

/-- Digit character for a value below ten. -/
def digitChar (n : Nat) : Char := Char.ofNat (48 + n)

/-- Fuel-driven decimal printer (the fuel `n + 1` always suffices), the
model of Python's `str(n)` / `"{}".format(n)` for a natural number. -/
def natToStrCore : Nat → Nat → Str → Str
  | 0, _, acc => acc
  | fuel + 1, n, acc =>
    if n < 10 then digitChar n :: acc
    else natToStrCore fuel (n / 10) (digitChar (n % 10) :: acc)

def natToStr (n : Nat) : Str := natToStrCore (n + 1) n []

/-- Zero-pad to three characters, as `strftime('%j')` formats the day of
year. -/
def pad3 (n : Nat) : Str :=
  if n < 10 then '0' :: '0' :: natToStr n
  else if n < 100 then '0' :: natToStr n
  else natToStr n

/-- Shallow embedding of `create_dayofyear_directory`: the
`"{year}_{dayofyear}"` bucket from a parsed date, or the empty string for
`None`. -/
def create_dayofyear_directory : Option NewStamp → Str
  | some st => natToStr st.year ++ '_' :: pad3 (dayOfYearNum st)
  | none => []

/-- Failure modes of the `SeaFlowFile` constructor.  Both are raised as
`errors.FileError` in the source; the constructors record which message is
produced: the doesn't-look-like-a-SeaFlow-file rejection versus the
wrapped `ValueError` from timestamp parsing. -/
inductive FileError where
  | unrecognized
  | invalidTimestamp
  deriving DecidableEq, Repr

/-- Fields of a successfully constructed `SeaFlowFile`. -/
structure SeaFlowFile where
  path : Str
  filename : Str
  filename_noext : Str
  date : Option NewStamp
  path_dayofyear : Str
  dayofyear : Str
  file_id : Str
  path_file_id : Str
  deriving DecidableEq, Repr

/-- Old-style (and path-derived) identifier: bucket-prefixed when a bucket
directory was found in the path, bare base name otherwise. -/
def mkPathId (path_doy noext : Str) : Str :=
  if path_doy.isEmpty then noext else path_doy ++ '/' :: noext

/-- Shallow embedding of `SeaFlowFile.__init__`.  The recognition test is
`is_old_style or is_new_style` on the extension-free leaf name; a
new-style name with an impossible timestamp raises (the wrapped
`ValueError`); ids are then derived exactly as the source does. -/
def seaFlowFile (path : Str) : Except FileError SeaFlowFile :=
  let parts := parse_path path
  let filename := parts.file
  let noext := remove_ext filename
  let isOld := matchOldFile noext
  let isNew := (newShape? noext).isSome
  if !(isOld || isNew) then .error .unrecognized
  else if isNew then
    match date_from_filename noext with
    | none => .error .invalidTimestamp
    | some st =>
      let doy := create_dayofyear_directory (some st)
      if isOld then
        .ok ⟨path, filename, noext, some st, parts.dayofyear, doy,
             mkPathId parts.dayofyear noext, mkPathId parts.dayofyear noext⟩
      else
        .ok ⟨path, filename, noext, some st, parts.dayofyear, doy,
             doy ++ '/' :: noext, mkPathId parts.dayofyear noext⟩
  else
    .ok ⟨path, filename, noext, none, parts.dayofyear, [],
         mkPathId parts.dayofyear noext, mkPathId parts.dayofyear noext⟩

/-- Python's `str.endswith`. -/
def endsWith (l suf : Str) : Bool :=
  decide (suf.length ≤ l.length) && (l.drop (l.length - suf.length) == suf)

/-- Shallow embedding of the `isgz` property: nonempty path and a
filename ending in `.gz`. -/
def isgz (f : SeaFlowFile) : Bool :=
  !f.path.isEmpty && endsWith f.filename ".gz".toList

/-- Python `int()` applied to a digit string. -/
def strToNat (l : Str) : Nat := l.foldl (fun acc c => 10 * acc + digVal c) 0

/-- Tiebreak component of the sort key: the parsed integer for old-style
names, the base-name string for new-style names.  Python raises
`TypeError` when a sort compares an `intKey` with a `strKey`; that error
path is modelled by `keyClash` / `PyError.typeError` in `sorted_files`
below. -/
inductive FileKey where
  | intKey (n : Nat)
  | strKey (s : Str)
  deriving DecidableEq, Repr

/-- Year and day parsed from a `YEAR_DAY` bucket string, as
`[int(x) for x in b.split("_")]` computes them (buckets reaching this
code always have exactly two parts). -/
def parseBucket (b : Str) : Nat × Nat :=
  let parts := (splitOnC '_' b).map strToNat
  (parts.getD 0 0, parts.getD 1 0)

/-- Shallow embedding of `SeaFlowFile.sort_key`: year and day from the
timestamp-derived bucket when present, else from the path bucket, else
zero; tiebreak per style. -/
def sort_key (f : SeaFlowFile) : Nat × Nat × FileKey :=
  let yd :=
    if !f.dayofyear.isEmpty then parseBucket f.dayofyear
    else if !f.path_dayofyear.isEmpty then parseBucket f.path_dayofyear
    else (0, 0)
  let fk :=
    if matchOldFile f.filename_noext then
      FileKey.intKey (strToNat ((splitOnC '.' f.filename_noext).headD []))
    else FileKey.strKey f.filename_noext
  (yd.1, yd.2, fk)

/-- Lexicographic string order, Python's `str` comparison by code point. -/
def lexLE : Str → Str → Bool
  | [], _ => true
  | _ :: _, [] => false
  | a :: as, b :: bs => decide (a < b) || (decide (a = b) && lexLE as bs)

/-- Comparison on tiebreak keys.  Python defines no order between an int
and a str — comparing them raises `TypeError` — so the two mixed-kind
branches below carry a fixed dummy value needed only for `fileKeyLE` to
be a total `Bool` function.  That value is never relevant to
`sorted_files`: `keyLE` consults the tiebreak only when the two keys
agree on year and day, and a mixed-kind pair agreeing on year and day is
exactly a `keyClash`, which makes `sorted_files` raise `typeError`
before any sorting happens. -/
def fileKeyLE : FileKey → FileKey → Bool
  | .intKey a, .intKey b => decide (a ≤ b)
  | .strKey a, .strKey b => lexLE a b
  | .intKey _, .strKey _ => true
  | .strKey _, .intKey _ => false

/-- Python tuple `<=` on sort keys (lexicographic on the three parts). -/
def keyLE (a b : Nat × Nat × FileKey) : Bool :=
  decide (a.1 < b.1) ||
    (decide (a.1 = b.1) &&
      (decide (a.2.1 < b.2.1) ||
        (decide (a.2.1 = b.2.1) && fileKeyLE a.2.2 b.2.2)))

/-- Comparator handed to the sort in `sorted_files`. -/
def fileLE (a b : SeaFlowFile) : Bool := keyLE (sort_key a) (sort_key b)

/-- The sort relation as a decidable proposition, for `List.insertionSort`.
Python's `sorted` is a stable ascending sort by `sort_key`; for a total
transitive comparator a stable sort has a unique result, so the
structural insertion sort is a faithful model of it. -/
def fileRel (a b : SeaFlowFile) : Prop := fileLE a b = true

instance : DecidableRel fileRel := fun a b => instDecidableEqBool (fileLE a b) true

/-- The list comprehension `[SeaFlowFile(f) for f in files]`: left to
right, the first `FileError` propagates. -/
def mapFilesM : List Str → Except FileError (List SeaFlowFile)
  | [] => .ok []
  | f :: rest =>
    match seaFlowFile f with
    | .error e => .error e
    | .ok s =>
      match mapFilesM rest with
      | .error e => .error e
      | .ok ss => .ok (s :: ss)

/-- Errors escaping `sorted_files` / `filtered_file_list`: the
`errors.FileError` raised by the `SeaFlowFile` constructor, or the
`TypeError` raised by `sorted()` when it compares an int sort key with a
str sort key. -/
inductive PyError where
  | fileError (e : FileError)
  | typeError
  deriving DecidableEq, Repr

/-- Two sort keys clash when Python's tuple comparison on them raises
`TypeError`: the years are equal, the days are equal (so elementwise
comparison reaches the third slot) and the tiebreaks are an int and a
str. -/
def keyClash (a b : Nat × Nat × FileKey) : Bool :=
  decide (a.1 = b.1) && decide (a.2.1 = b.2.1) &&
    (match a.2.2, b.2.2 with
     | .intKey _, .strKey _ => true
     | .strKey _, .intKey _ => true
     | _, _ => false)

/-- Does some pair of the files' sort keys clash? -/
def hasClash (sfiles : List SeaFlowFile) : Bool :=
  sfiles.any fun a => sfiles.any fun b => keyClash (sort_key a) (sort_key b)

/-- Shallow embedding of `sorted_files`: construct every `SeaFlowFile`
(raising on the first failure), then stable-sort by `sort_key` and
return paths.  `sorted()` raises `TypeError` exactly when the list holds
a clashing pair: every key comparison between a clashing pair raises,
and nothing else does; a clashing pair, when present, is necessarily
compared, because every non-clashing element orders identically against
both members of the pair (their keys agree on year and day, the only
slots such a comparison reads), so no set of comparisons avoiding the
pair can place its members relative to each other, while comparisons
with other equal-year-and-day elements clash themselves.  When no pair
clashes, every comparison `sorted()` performs is defined and the result
is the unique stable ascending order, which the structural insertion
sort computes. -/
def sorted_files (files : List Str) : Except PyError (List Str) :=
  match mapFilesM files with
  | .error e => .error (.fileError e)
  | .ok sfiles =>
    if hasClash sfiles then .error .typeError
    else .ok ((List.insertionSort fileRel sfiles).map SeaFlowFile.path)

/-- Structural translation of `evt_file_re`: a bare new-style timestamp
or `\d+\.evt`, optionally `.gz`-compressed (applied to the full
filename). -/
def matchEvtFile (s : Str) : Bool :=
  let core := if endsWith s ".gz".toList then s.take (s.length - 3) else s
  (newShape? core).isSome || matchOldFile core

/-- Structural translation of `opp_file_re`: like `evt_file_re` with a
mandatory `.opp` before the optional `.gz`. -/
def matchOppFile (s : Str) : Bool :=
  let core := if endsWith s ".gz".toList then s.take (s.length - 3) else s
  if endsWith core ".opp".toList then
    let base := core.take (core.length - 4)
    (newShape? base).isSome || matchOldFile base
  else false

/-- Shallow embedding of `keep_evt_files`: `FileError`s from the
constructor are swallowed and the offending path is dropped; surviving
paths are kept when their kind matches. -/
def keep_evt_files (files : List Str) (opp : Bool) : List Str :=
  files.filter fun f =>
    match seaFlowFile f with
    | .error _ => false
    | .ok sfile => (opp && matchOppFile sfile.filename) ||
        (!opp && matchEvtFile sfile.filename)

/-- The set comprehension `{SeaFlowFile(f).file_id for f in filter_list}`,
as the list of ids (first constructor failure propagates). -/
def filterIdsM : List Str → Except FileError (List Str)
  | [] => .ok []
  | f :: rest =>
    match seaFlowFile f with
    | .error e => .error e
    | .ok s =>
      match filterIdsM rest with
      | .error e => .error e
      | .ok ids => .ok (s.file_id :: ids)

/-- The selection loop of `filtered_file_list`: keep paths whose
`file_id` is in the filter set, preserving the original path strings. -/
def keepMatching (filterIds : List Str) : List Str → Except FileError (List Str)
  | [] => .ok []
  | f :: rest =>
    match seaFlowFile f with
    | .error e => .error e
    | .ok s =>
      match keepMatching filterIds rest with
      | .error e => .error e
      | .ok keep => .ok (if filterIds.contains s.file_id then f :: keep else keep)

/-- Shallow embedding of `filtered_file_list`. -/
def filtered_file_list (total_list filter_list : List Str) : Except PyError (List Str) :=
  match filterIdsM filter_list with
  | .error e => .error (.fileError e)
  | .ok ids =>
    match keepMatching ids total_list with
    | .error e => .error (.fileError e)
    | .ok keep => sorted_files keep

/-- Total versions of identity resolution used only to state theorems:
the constructed file (or a dummy), its id and its sort key. -/
def fileOfD (p : Str) : SeaFlowFile :=
  match seaFlowFile p with
  | .ok f => f
  | .error _ => ⟨[], [], [], none, [], [], [], []⟩

def fileIdD (p : Str) : Str := (fileOfD p).file_id

def sortKeyD (p : Str) : Nat × Nat × FileKey := sort_key (fileOfD p)

/-- Modelled from the spec (for the refinement side of claim C5 only):
the bucket the spec prescribes, `"{year}_{dayOfYear:03d}"` of the
timestamp normalized to UTC.  The code under test never performs this
normalization; this definition exists to compare the two. -/
def daysInYear (y : Nat) : Nat := if isLeap y then 366 else 365

def specUTCBucket (st : NewStamp) : Str :=
  let offset : Int := (if st.tzNeg then -1 else 1) * (st.tzh * 60 + st.tzm)
  let t : Int := (st.hour * 60 + st.minute : Nat) - offset
  let doy := dayOfYearNum st
  let yd : Nat × Nat :=
    if t < 0 then
      (if doy > 1 then (st.year, doy - 1) else (st.year - 1, daysInYear (st.year - 1)))
    else if t ≥ 24 * 60 then
      (if doy < daysInYear st.year then (st.year, doy + 1) else (st.year + 1, 1))
    else (st.year, doy)
  natToStr yd.1 ++ '_' :: pad3 yd.2

/-- Shallow embedding of the `is_old_style` property: the old-style regex
applied to the extension-free leaf name. -/
def is_old_style (filename : Str) : Bool := matchOldFile (remove_ext filename)

/-- Shallow embedding of the `is_new_style` property. -/
def is_new_style (filename : Str) : Bool := (newShape? (remove_ext filename)).isSome

/-- Bucket embedded in a canonical id: the part before the `/` when the
id is bucket-prefixed, empty otherwise (used only to state claims about
the sort key's provenance). -/
def canonicalBucket (f : SeaFlowFile) : Str :=
  let parts := splitOnC '/' f.file_id
  if parts.length ≥ 2 then parts.headD [] else []

/-- Elimination lemma for a successful decode: the stream had a 4-byte
header with nonzero row count, the payload length was exactly the
expected byte count, and the result is `labviewMatrix`. -/
theorem readLabview_ok_elim {columns : Nat} {b0 b1 b2 b3 : Nat} {payload : List Nat}
    {m : List (List Nat)}
    (h : readLabview columns (b0 :: b1 :: b2 :: b3 :: payload) = .ok m) :
    le32 b0 b1 b2 b3 ≠ 0 ∧
    payload.length = le32 b0 b1 b2 b3 * (columns + 2) * 2 ∧
    m = labviewMatrix columns (le32 b0 b1 b2 b3) payload := by
  unfold readLabview at h
  by_cases h0 : le32 b0 b1 b2 b3 = 0
  · simp [h0] at h
  · simp only [h0, if_false] at h
    by_cases hlen : payload.length = le32 b0 b1 b2 b3 * (columns + 2) * 2
    · refine ⟨h0, hlen, ?_⟩
      simp only [hlen, ne_eq, not_true_eq_false, if_false, ite_false] at h
      simp at h
      exact h.symm
    · simp [hlen] at h

theorem labviewMatrix_length (columns rowcnt : Nat) (payload : List Nat) :
    (labviewMatrix columns rowcnt payload).length = rowcnt := by
  simp [labviewMatrix]

theorem labviewMatrix_row_length {columns rowcnt : Nat} {payload : List Nat}
    {r : List Nat} (hr : r ∈ labviewMatrix columns rowcnt payload) :
    r.length = columns := by
  simp only [labviewMatrix, List.mem_map] at hr
  obtain ⟨i, _, rfl⟩ := hr
  simp

theorem getD_map_range {α : Type} {f : Nat → α} {n i : Nat} (h : i < n) (d : α) :
    ((List.range n).map f).getD i d = f i := by
  rw [List.getD_eq_getElem?_getD, List.getElem?_map, List.getElem?_range h]
  rfl

theorem labviewMatrix_cell (columns rowcnt : Nat) (payload : List Nat)
    (i j : Nat) (hi : i < rowcnt) (hj : j < columns) :
    ((labviewMatrix columns rowcnt payload).getD i []).getD j 0 =
      u16At payload (i * (columns + 2) + (j + 2)) := by
  unfold labviewMatrix
  rw [getD_map_range hi, getD_map_range hj]

/-- CLAIM C1: `decode` classifies every input byte stream into exactly one
outcome: `EmptyFile` for zero bytes, `TruncatedHeader` for one to three
bytes, `NoData` when the little-endian header is zero, `ByteCountMismatch`
when the byte count after the header is not
`rowCount * (measurementColumns + 2) * 2`, and success otherwise. -/
theorem c1_decode_classification (columns : Nat) (s : List Nat) :
    (s = [] → readLabview columns s = .error .emptyFile) ∧
    (1 ≤ s.length → s.length ≤ 3 → readLabview columns s = .error .truncatedHeader) ∧
    (∀ b0 b1 b2 b3 payload, s = b0 :: b1 :: b2 :: b3 :: payload →
      (le32 b0 b1 b2 b3 = 0 → readLabview columns s = .error .noData) ∧
      (le32 b0 b1 b2 b3 ≠ 0 →
        payload.length ≠ le32 b0 b1 b2 b3 * (columns + 2) * 2 →
        readLabview columns s =
          .error (.byteCountMismatch (le32 b0 b1 b2 b3 * (columns + 2) * 2) payload.length)) ∧
      (le32 b0 b1 b2 b3 ≠ 0 →
        payload.length = le32 b0 b1 b2 b3 * (columns + 2) * 2 →
        ∃ m, readLabview columns s = .ok m)) := by
  refine ⟨?_, ?_, ?_⟩
  · rintro rfl; rfl
  · intro h1 h3
    match s with
    | [] => simp at h1
    | [a] => rfl
    | [a, b] => rfl
    | [a, b, c] => rfl
    | a :: b :: c :: d :: t => simp at h3
  · rintro b0 b1 b2 b3 payload rfl
    refine ⟨?_, ?_, ?_⟩
    · intro h0; simp [readLabview, h0]
    · intro h0 hlen; simp [readLabview, h0, hlen]
    · intro h0 hlen
      exact ⟨labviewMatrix columns (le32 b0 b1 b2 b3) payload, by simp [readLabview, h0, hlen]⟩

/-- Witness for C1 at the spec's own examples: the empty buffer, a short
buffer, the all-zero 4-byte buffer, the `rowCount = 1`,
`measurementColumns = 2` header with only 6 of the required 8 payload
bytes, and a complete well-formed stream. -/
theorem c1_decode_classification_witness :
    readLabview 2 [] = .error .emptyFile ∧
    readLabview 2 [7] = .error .truncatedHeader ∧
    readLabview 2 [0, 0, 0, 0] = .error .noData ∧
    readLabview 2 [1, 0, 0, 0, 9, 9, 1, 0, 2, 0] = .error (.byteCountMismatch 8 6) ∧
    ∃ m, readLabview 2 [1, 0, 0, 0, 9, 9, 1, 0, 2, 0, 3, 0] = .ok m := by
  refine ⟨(c1_decode_classification 2 []).1 rfl,
          (c1_decode_classification 2 [7]).2.1 (by decide) (by decide), ?_, ?_, ?_⟩
  · exact ((c1_decode_classification 2 [0, 0, 0, 0]).2.2 0 0 0 0 [] rfl).1 (by decide)
  · exact ((c1_decode_classification 2 [1, 0, 0, 0, 9, 9, 1, 0, 2, 0]).2.2
      1 0 0 0 [9, 9, 1, 0, 2, 0] rfl).2.1 (by decide) (by decide)
  · exact ((c1_decode_classification 2 [1, 0, 0, 0, 9, 9, 1, 0, 2, 0, 3, 0]).2.2
      1 0 0 0 [9, 9, 1, 0, 2, 0, 3, 0] rfl).2.2 (by decide) (by decide)

/-- Byte at flat index `k` of the payload is below 256 (or the default 0). -/
theorem getD_lt_256 {payload : List Nat} (hb : ∀ b ∈ payload, b < 256) (k : Nat) :
    payload.getD k 0 ≤ 255 := by
  rw [List.getD_eq_getElem?_getD]
  cases hk : payload[k]? with
  | none => simp
  | some b =>
    obtain ⟨hlt, rfl⟩ := List.getElem?_eq_some.mp hk
    have := hb _ (List.getElem_mem hlt)
    simpa using Nat.lt_succ_iff.mp this

/-- CLAIM C2: a successful decode yields exactly `rowCount` rows of
`measurementColumns` cells; the two leading uint16 values of each payload
row are discarded, cell `(i, j)` is the `(j+2)`-th little-endian uint16 of
payload row `i` (converted exactly, with no scaling or clamping), every
cell lies in `[0, 65535]`, and `rowCount ≥ 1`. -/
theorem c2_matrix_contents (columns : Nat) (b0 b1 b2 b3 : Nat) (payload : List Nat)
    (m : List (List Nat))
    (hb : ∀ b ∈ payload, b < 256)
    (h : readLabview columns (b0 :: b1 :: b2 :: b3 :: payload) = .ok m) :
    m.length = le32 b0 b1 b2 b3 ∧
    1 ≤ m.length ∧
    (∀ r ∈ m, r.length = columns) ∧
    (∀ i j, i < m.length → j < columns →
      (m.getD i []).getD j 0 = u16At payload (i * (columns + 2) + (j + 2))) ∧
    (∀ r ∈ m, ∀ c ∈ r, c ≤ 65535) := by
  obtain ⟨h0, hlen, rfl⟩ := readLabview_ok_elim h
  rw [labviewMatrix_length]
  refine ⟨rfl, Nat.one_le_iff_ne_zero.mpr h0, fun r hr => labviewMatrix_row_length hr,
    fun i j hi hj => labviewMatrix_cell columns _ payload i j hi hj, ?_⟩
  intro r hr c hc
  simp only [labviewMatrix, List.mem_map] at hr
  obtain ⟨i, _, rfl⟩ := hr
  simp only [List.mem_map] at hc
  obtain ⟨j, _, rfl⟩ := hc
  unfold u16At
  have ha := getD_lt_256 hb (2 * (i * (columns + 2) + (j + 2)))
  have hb2 := getD_lt_256 hb (2 * (i * (columns + 2) + (j + 2)) + 1)
  omega

/-- Witness for C2: `measurementColumns = 1`, one row, payload
`[9, 9, 7, 1, 3, 2]`; the two leading uint16 values (`9 + 256*9` and
`7 + 256*1`) are discarded and the single cell is `3 + 256*2 = 515`. -/
theorem c2_matrix_contents_witness :
    (∀ b ∈ [9, 9, 7, 1, 3, 2], b < 256) ∧
    ([[515]] : List (List Nat)).length = le32 1 0 0 0 ∧
    1 ≤ ([[515]] : List (List Nat)).length ∧
    (∀ r ∈ ([[515]] : List (List Nat)), r.length = 1) ∧
    (∀ i j, i < ([[515]] : List (List Nat)).length → j < 1 →
      (([[515]] : List (List Nat)).getD i []).getD j 0 =
        u16At [9, 9, 7, 1, 3, 2] (i * (1 + 2) + (j + 2))) ∧
    (∀ r ∈ ([[515]] : List (List Nat)), ∀ c ∈ r, c ≤ 65535) :=
  ⟨by decide,
   c2_matrix_contents 1 1 0 0 0 [9, 9, 7, 1, 3, 2] [[515]] (by decide) rfl⟩

/-- CLAIM C9: two streams with identical 4-byte headers, payloads of equal
length and at most one differing payload byte that both decode
successfully yield matrices of the same shape: same number of rows and
pointwise-equal row lengths. -/
theorem c9_corruption_shape (columns : Nat) (s1 s2 : List Nat)
    (m1 m2 : List (List Nat))
    (hlen : s1.length = s2.length)
    (hhead : s1.take 4 = s2.take 4)
    (hdiff : ∃ k, ∀ i < s1.length, i ≠ k → s1.getD i 0 = s2.getD i 0)
    (h1 : readLabview columns s1 = .ok m1)
    (h2 : readLabview columns s2 = .ok m2) :
    m1.length = m2.length ∧
    ∀ i < m1.length, (m1.getD i []).length = (m2.getD i []).length := by
  clear hdiff
  match s1, s2 with
  | [], _ => exact absurd h1 (by simp [readLabview])
  | [_], _ => exact absurd h1 (by simp [readLabview])
  | [_, _], _ => exact absurd h1 (by simp [readLabview])
  | [_, _, _], _ => exact absurd h1 (by simp [readLabview])
  | _ :: _ :: _ :: _ :: _, [] => exact absurd h2 (by simp [readLabview])
  | _ :: _ :: _ :: _ :: _, [_] => exact absurd h2 (by simp [readLabview])
  | _ :: _ :: _ :: _ :: _, [_, _] => exact absurd h2 (by simp [readLabview])
  | _ :: _ :: _ :: _ :: _, [_, _, _] => exact absurd h2 (by simp [readLabview])
  | a0 :: a1 :: a2 :: a3 :: p1, b0 :: b1 :: b2 :: b3 :: p2 =>
    obtain ⟨_, _, rfl⟩ := readLabview_ok_elim h1
    obtain ⟨_, _, rfl⟩ := readLabview_ok_elim h2
    simp only [List.take_succ_cons, List.take_zero, List.cons.injEq, and_true] at hhead
    obtain ⟨rfl, rfl, rfl, rfl⟩ := hhead
    refine ⟨by rw [labviewMatrix_length, labviewMatrix_length], ?_⟩
    intro i hi
    rw [labviewMatrix_length] at hi
    have hi1 : i < (labviewMatrix columns (le32 a0 a1 a2 a3) p1).length := by
      rwa [labviewMatrix_length]
    have hi2 : i < (labviewMatrix columns (le32 a0 a1 a2 a3) p2).length := by
      rwa [labviewMatrix_length]
    have e1 : (labviewMatrix columns (le32 a0 a1 a2 a3) p1).getD i [] ∈
        labviewMatrix columns (le32 a0 a1 a2 a3) p1 := by
      rw [List.getD_eq_getElem _ _ hi1]
      exact List.getElem_mem hi1
    have e2 : (labviewMatrix columns (le32 a0 a1 a2 a3) p2).getD i [] ∈
        labviewMatrix columns (le32 a0 a1 a2 a3) p2 := by
      rw [List.getD_eq_getElem _ _ hi2]
      exact List.getElem_mem hi2
    rw [labviewMatrix_row_length e1, labviewMatrix_row_length e2]

/-- Witness for C9: two 10-byte streams with the same `rowCount = 1`
header, differing only in the final payload byte, both decode to a
`1 × 1` matrix. -/
theorem c9_corruption_shape_witness :
    ∃ m1 m2, readLabview 1 [1, 0, 0, 0, 9, 9, 7, 1, 3, 2] = .ok m1 ∧
      readLabview 1 [1, 0, 0, 0, 9, 9, 7, 1, 3, 200] = .ok m2 ∧
      m1.length = m2.length ∧
      ∀ i < m1.length, (m1.getD i []).length = (m2.getD i []).length := by
  refine ⟨[[515]], [[51203]], rfl, rfl, ?_⟩
  exact c9_corruption_shape 1 [1, 0, 0, 0, 9, 9, 7, 1, 3, 2]
    [1, 0, 0, 0, 9, 9, 7, 1, 3, 200] [[515]] [[51203]]
    (by decide) (by decide) ⟨9, by decide⟩ rfl rfl

theorem splitOnC_ne_nil (sep : Char) (l : Str) : splitOnC sep l ≠ [] := by
  cases l with
  | nil => simp [splitOnC]
  | cons c rest =>
    simp only [splitOnC]
    split <;> simp

/-- Splitting a separator-free string returns the string alone. -/
theorem splitOnC_of_not_mem {sep : Char} {l : Str} (h : sep ∉ l) :
    splitOnC sep l = [l] := by
  induction l with
  | nil => rfl
  | cons c rest ih =>
    simp only [List.mem_cons, not_or] at h
    simp [splitOnC, Ne.symm h.1, ih h.2]

/-- Splitting distributes over the first separator occurrence. -/
theorem splitOnC_append_sep {sep : Char} {xs : Str} (ys : Str) (h : sep ∉ xs) :
    splitOnC sep (xs ++ sep :: ys) = xs :: splitOnC sep ys := by
  induction xs with
  | nil => simp [splitOnC]
  | cons c rest ih =>
    simp only [List.mem_cons, not_or] at h
    have hr := ih h.2
    simp only [List.cons_append, splitOnC, List.append_eq]
    rw [hr]
    simp [Ne.symm h.1]

/-!
Helper lemmas about the string-level operations.
-/

theorem splitOnC_cons_form (sep : Char) (l : Str) :
    ∃ hd td, splitOnC sep l = hd :: td :=
  match hs : splitOnC sep l, splitOnC_ne_nil sep l with
  | hd :: td, _ => ⟨hd, td, rfl⟩

theorem splitOnC_singleton {sep : Char} {l b : Str} (h : splitOnC sep l = [b]) :
    l = b ∧ sep ∉ l := by
  induction l generalizing b with
  | nil =>
    simp only [splitOnC, List.cons.injEq, and_true] at h
    simp [← h]
  | cons c rest ih =>
    simp only [splitOnC] at h
    by_cases hc : c = sep
    · rw [if_pos hc] at h
      have hlen := congrArg List.length h
      simp only [List.length_cons, List.length_singleton] at hlen
      obtain ⟨hd, td, hs⟩ := splitOnC_cons_form sep rest
      rw [hs] at hlen
      simp at hlen
    · rw [if_neg hc] at h
      injection h with hr htl
      obtain ⟨hd, td, hs⟩ := splitOnC_cons_form sep rest
      rw [hs] at hr htl
      simp only [List.headD_cons] at hr
      simp only [List.tail_cons] at htl
      subst htl
      obtain ⟨hrest, hmem⟩ := ih hs
      subst hrest
      constructor
      · exact hr
      · simp only [List.mem_cons, not_or]
        exact ⟨Ne.symm hc, hmem⟩

theorem splitOnC_pair {sep : Char} {l a b : Str} (h : splitOnC sep l = [a, b]) :
    l = a ++ sep :: b ∧ sep ∉ a ∧ sep ∉ b := by
  induction l generalizing a with
  | nil => simp [splitOnC] at h
  | cons c rest ih =>
    simp only [splitOnC] at h
    by_cases hc : c = sep
    · rw [if_pos hc] at h
      injection h with ha hb
      obtain ⟨hrest, hmem⟩ := splitOnC_singleton hb
      subst hrest
      subst hc
      refine ⟨by rw [← ha]; rfl, by simp [← ha], hmem⟩
    · rw [if_neg hc] at h
      injection h with ha htl
      obtain ⟨hd, td, hsplit⟩ := splitOnC_cons_form sep rest
      rw [hsplit] at ha htl
      simp only [List.headD_cons] at ha
      simp only [List.tail_cons] at htl
      subst htl
      obtain ⟨hrest, hna, hnb⟩ := ih hsplit
      subst hrest
      refine ⟨by rw [← ha]; rfl, ?_, hnb⟩
      rw [← ha]
      simp only [List.mem_cons, not_or]
      exact ⟨Ne.symm hc, hna⟩

theorem exists_first_sep {c : Char} {f : Str} (h : c ∈ f) :
    ∃ a b, f = a ++ c :: b ∧ c ∉ a := by
  induction f with
  | nil => cases h
  | cons x xs ih =>
    by_cases hx : x = c
    · exact ⟨[], xs, by simp [hx], by simp⟩
    · have hmem : c ∈ xs := by
        rcases List.mem_cons.mp h with h | h
        · exact absurd h.symm hx
        · exact h
      obtain ⟨a, b, rfl, hna⟩ := ih hmem
      exact ⟨x :: a, b, rfl, by simp only [List.mem_cons, not_or]; exact ⟨Ne.symm hx, hna⟩⟩

theorem newShape?_chars {l : Str} {st : NewStamp} (h : newShape? l = some st) :
    ∀ c ∈ l, c.isDigit = true ∨ c = '-' ∨ c = 'T' ∨ c = '+' := by
  unfold newShape? at h
  split at h
  next y1 y2 y3 y4 s1 mo1 mo2 s2 d1 d2 t h1 h2 s3 mi1 mi2 s4 se1 se2 sg zh1 zh2 s5 zm1 zm2 =>
    split at h
    next hc =>
      unfold newShapeCond at hc
      simp only [Bool.and_eq_true, Bool.or_eq_true, beq_iff_eq, and_assoc] at hc
      obtain ⟨hy1, hy2, hy3, hy4, hs1, hmo1, hmo2, hs2, hd1, hd2, ht, hh1, hh2, hs3,
        hmi1, hmi2, hs4, hse1, hse2, hsg, hzh1, hzh2, hs5, hzm1, hzm2⟩ := hc
      intro c hcm
      simp only [List.mem_cons, List.not_mem_nil, or_false] at hcm
      rcases hcm with rfl | rfl | rfl | rfl | rfl | rfl | rfl | rfl | rfl | rfl | rfl |
        rfl | rfl | rfl | rfl | rfl | rfl | rfl | rfl | rfl | rfl | rfl | rfl | rfl | rfl
      · exact Or.inl hy1
      · exact Or.inl hy2
      · exact Or.inl hy3
      · exact Or.inl hy4
      · exact Or.inr (Or.inl hs1)
      · exact Or.inl hmo1
      · exact Or.inl hmo2
      · exact Or.inr (Or.inl hs2)
      · exact Or.inl hd1
      · exact Or.inl hd2
      · exact Or.inr (Or.inr (Or.inl ht))
      · exact Or.inl hh1
      · exact Or.inl hh2
      · exact Or.inr (Or.inl hs3)
      · exact Or.inl hmi1
      · exact Or.inl hmi2
      · exact Or.inr (Or.inl hs4)
      · exact Or.inl hse1
      · exact Or.inl hse2
      · rcases hsg with hg | hg
        · exact Or.inr (Or.inr (Or.inr hg))
        · exact Or.inr (Or.inl hg)
      · exact Or.inl hzh1
      · exact Or.inl hzh2
      · exact Or.inr (Or.inl hs5)
      · exact Or.inl hzm1
      · exact Or.inl hzm2
    next => exact absurd h (by simp)
  next => exact absurd h (by simp)

theorem newShape?_no_dot {l : Str} {st : NewStamp} (h : newShape? l = some st) :
    '.' ∉ l := by
  intro hm
  rcases newShape?_chars h _ hm with hc | hc | hc | hc <;> exact absurd hc (by decide)

theorem newShape?_no_slash {l : Str} {st : NewStamp} (h : newShape? l = some st) :
    '/' ∉ l := by
  intro hm
  rcases newShape?_chars h _ hm with hc | hc | hc | hc <;> exact absurd hc (by decide)

theorem matchOldFile_elim {l : Str} (h : matchOldFile l = true) :
    ∃ d : Str, l = d ++ ".evt".toList ∧ 1 ≤ d.length ∧ d.all Char.isDigit = true := by
  unfold matchOldFile at h
  simp only [Bool.and_eq_true, decide_eq_true_eq, beq_iff_eq] at h
  obtain ⟨⟨h5, hdrop⟩, hdig⟩ := h
  refine ⟨l.take (l.length - 4), ?_, ?_, hdig⟩
  · rw [← hdrop]
    exact (List.take_append_drop _ l).symm
  · simp only [List.length_take]
    omega

theorem matchOldFile_intro {d : Str} (hne : 1 ≤ d.length)
    (hdig : d.all Char.isDigit = true) :
    matchOldFile (d ++ ".evt".toList) = true := by
  unfold matchOldFile
  have hlen : (d ++ ".evt".toList).length = d.length + 4 := by simp
  have h4 : d.length + 4 - 4 = d.length := by omega
  simp only [hlen, h4, Bool.and_eq_true, decide_eq_true_eq, beq_iff_eq]
  refine ⟨⟨by omega, ?_⟩, ?_⟩
  · exact List.drop_left d _
  · rw [List.take_left]
    exact hdig

theorem all_digits_not_mem {d : Str} (hdig : d.all Char.isDigit = true) {c : Char}
    (hc : c.isDigit = false) : c ∉ d := by
  intro hm
  have := List.all_eq_true.mp hdig c hm
  rw [hc] at this
  cases this

theorem newShape?_not_old {l : Str} {st : NewStamp} (h : newShape? l = some st) :
    matchOldFile l = false := by
  by_contra hb
  have hold : matchOldFile l = true := by
    cases hmo : matchOldFile l
    · exact absurd hmo hb
    · rfl
  obtain ⟨d, rfl, _, _⟩ := matchOldFile_elim hold
  exact newShape?_no_dot h (by simp [String.toList])

theorem remove_ext_no_dot {l : Str} (h : '.' ∉ l) : remove_ext l = l := by
  unfold remove_ext
  rw [splitOnC_of_not_mem h]
  simp

theorem basename_no_slash {l : Str} (h : '/' ∉ l) : basename l = l := by
  unfold basename
  rw [splitOnC_of_not_mem h]
  rfl

theorem splitOnC_headD_append {sep : Char} (b ys : Str) :
    (splitOnC sep (b ++ sep :: ys)).headD [] = (splitOnC sep b).headD [] := by
  by_cases hb : sep ∈ b
  · obtain ⟨a, b', rfl, hna⟩ := exists_first_sep hb
    rw [List.append_assoc, List.cons_append]
    rw [splitOnC_append_sep _ hna, splitOnC_append_sep _ hna]
    rfl
  · rw [splitOnC_append_sep _ hb, splitOnC_of_not_mem hb]
    rfl

theorem remove_ext_append {a b : Str} (hna : '.' ∉ a) :
    remove_ext (a ++ '.' :: b) =
      (if ((splitOnC '.' b).headD [] == "evt".toList) &&
          (decide (1 ≤ a.length) && a.all Char.isDigit) then
        a ++ ".evt".toList
      else a) := by
  unfold remove_ext
  rw [splitOnC_append_sep b hna]
  obtain ⟨hd, td, hs⟩ := splitOnC_cons_form '.' b
  rw [hs]
  simp only [List.headD_cons, List.length_cons, List.getD_cons_succ, List.getD_cons_zero]
  have hgt : decide (td.length + 1 + 1 > 1) = true := by simp
  rw [hgt]
  simp only [Bool.true_and]

theorem remove_ext_gz (f : Str) :
    remove_ext (f ++ ".gz".toList) = remove_ext f := by
  by_cases hf : '.' ∈ f
  · obtain ⟨a, b, rfl, hna⟩ := exists_first_sep hf
    have h1 : a ++ '.' :: b ++ ".gz".toList = a ++ '.' :: (b ++ '.' :: "gz".toList) := by
      simp
    rw [h1, remove_ext_append hna, remove_ext_append hna,
      splitOnC_headD_append b ("gz".toList)]
  · have h1 : f ++ ".gz".toList = f ++ '.' :: "gz".toList := rfl
    rw [h1, remove_ext_append hf, remove_ext_no_dot hf]
    have hgz : ((splitOnC '.' ("gz".toList)).headD [] == "evt".toList) = false := by decide
    rw [hgz]
    simp

theorem remove_ext_digits (d : Str) (hdig : d.all Char.isDigit = true) :
    remove_ext d = d :=
  remove_ext_no_dot (all_digits_not_mem hdig (by decide))

theorem remove_ext_digits_evt {d : Str} (hne : 1 ≤ d.length)
    (hdig : d.all Char.isDigit = true) :
    remove_ext (d ++ ".evt".toList) = d ++ ".evt".toList := by
  have hna : '.' ∉ d := all_digits_not_mem hdig (by decide)
  have h1 : d ++ ".evt".toList = d ++ '.' :: "evt".toList := rfl
  rw [h1, remove_ext_append hna]
  have h2 : ((splitOnC '.' ("evt".toList)).headD [] == "evt".toList) = true := by decide
  rw [h2]
  simp [hne, hdig]

theorem remove_ext_digits_evt_gz {d : Str} (hne : 1 ≤ d.length)
    (hdig : d.all Char.isDigit = true) :
    remove_ext (d ++ ".evt.gz".toList) = d ++ ".evt".toList := by
  have hna : '.' ∉ d := all_digits_not_mem hdig (by decide)
  have h1 : d ++ ".evt.gz".toList = d ++ '.' :: "evt.gz".toList := rfl
  rw [h1, remove_ext_append hna]
  have h2 : ((splitOnC '.' ("evt.gz".toList)).headD [] == "evt".toList) = true := by decide
  rw [h2]
  simp [hne, hdig]

theorem matchOldFile_digits {d : Str} (hdig : d.all Char.isDigit = true) :
    matchOldFile d = false := by
  by_contra hb
  have hold : matchOldFile d = true := by
    cases hmo : matchOldFile d
    · exact absurd hmo hb
    · rfl
  obtain ⟨d', heq, _, _⟩ := matchOldFile_elim hold
  exact all_digits_not_mem hdig (by decide) (heq ▸ (by simp [String.toList] : '.' ∈ d' ++ ".evt".toList))

theorem digitChar_isDigit {n : Nat} (h : n < 10) : (digitChar n).isDigit = true := by
  interval_cases n <;> decide

theorem natToStrCore_chars : ∀ fuel n (acc : Str), (∀ c ∈ acc, c.isDigit = true) →
    ∀ c ∈ natToStrCore fuel n acc, c.isDigit = true
  | 0, _, _, hacc => hacc
  | fuel + 1, n, acc, hacc => by
    unfold natToStrCore
    split
    next hn =>
      intro c hc
      rcases List.mem_cons.mp hc with rfl | hc
      · exact digitChar_isDigit hn
      · exact hacc c hc
    next hn =>
      exact natToStrCore_chars fuel _ _ (fun c hc => by
        rcases List.mem_cons.mp hc with rfl | hc
        · exact digitChar_isDigit (Nat.mod_lt _ (by omega))
        · exact hacc c hc)

theorem natToStr_chars (n : Nat) : ∀ c ∈ natToStr n, c.isDigit = true :=
  natToStrCore_chars (n + 1) n [] (by simp)

theorem natToStrCore_ne_nil_acc : ∀ fuel n (acc : Str), acc ≠ [] →
    natToStrCore fuel n acc ≠ []
  | 0, _, _, hacc => hacc
  | fuel + 1, n, acc, hacc => by
    unfold natToStrCore
    split
    · simp
    · exact natToStrCore_ne_nil_acc fuel _ _ (by simp)

theorem natToStr_ne_nil (n : Nat) : natToStr n ≠ [] := by
  unfold natToStr natToStrCore
  split
  · simp
  · exact natToStrCore_ne_nil_acc n _ _ (by simp)

theorem pad3_chars (n : Nat) : ∀ c ∈ pad3 n, c.isDigit = true := by
  unfold pad3
  split
  · intro c hc
    rcases List.mem_cons.mp hc with rfl | hc
    · decide
    · rcases List.mem_cons.mp hc with rfl | hc
      · decide
      · exact natToStr_chars n c hc
  · split
    · intro c hc
      rcases List.mem_cons.mp hc with rfl | hc
      · decide
      · exact natToStr_chars n c hc
    · exact natToStr_chars n

theorem create_doy_some_ne_nil (st : NewStamp) :
    create_dayofyear_directory (some st) ≠ [] := by
  unfold create_dayofyear_directory
  simp

theorem create_doy_some_no_slash (st : NewStamp) :
    '/' ∉ create_dayofyear_directory (some st) := by
  unfold create_dayofyear_directory
  intro hm
  rcases List.mem_append.mp hm with hm | hm
  · exact absurd (natToStr_chars _ _ hm) (by decide)
  · rcases List.mem_cons.mp hm with hm | hm
    · exact absurd hm (by decide)
    · exact absurd (pad3_chars _ _ hm) (by decide)

theorem matchDayofyearDir_elim {s : Str} (h : matchDayofyearDir s = true) :
    ∃ a b : Str, s = a ++ '_' :: b ∧ a.all Char.isDigit = true ∧
      b.all Char.isDigit = true ∧ 1 ≤ a.length ∧ 1 ≤ b.length := by
  unfold matchDayofyearDir at h
  split at h
  next a b heq =>
    simp only [Bool.and_eq_true, decide_eq_true_eq] at h
    obtain ⟨⟨⟨ha1, _⟩, ha2⟩, ⟨hb1, _⟩, hb2⟩ := h
    obtain ⟨hs, _, _⟩ := splitOnC_pair heq
    exact ⟨a, b, hs, ha2, hb2, ha1, hb1⟩
  next => cases h

theorem matchDayofyearDir_no_slash {s : Str} (h : matchDayofyearDir s = true) :
    '/' ∉ s := by
  obtain ⟨a, b, rfl, ha, hb, _, _⟩ := matchDayofyearDir_elim h
  intro hm
  rcases List.mem_append.mp hm with hm | hm
  · exact absurd (List.all_eq_true.mp ha _ hm) (by decide)
  · rcases List.mem_cons.mp hm with hm | hm
    · exact absurd hm (by decide)
    · exact absurd (List.all_eq_true.mp hb _ hm) (by decide)

theorem matchDayofyearDir_ne_nil {s : Str} (h : matchDayofyearDir s = true) :
    s ≠ [] := by
  obtain ⟨a, b, rfl, _⟩ := matchDayofyearDir_elim h
  simp

theorem parse_path_dayofyear_cases (p : Str) :
    (parse_path p).dayofyear = [] ∨ matchDayofyearDir (parse_path p).dayofyear = true := by
  simp only [parse_path]
  by_cases h1 : (splitpath p).length > 1
  · rw [if_pos h1]
    by_cases h2 : matchDayofyearDir ((splitpath p).getD ((splitpath p).length - 2) []) = true
    · rw [if_pos h2]
      exact Or.inr h2
    · rw [if_neg h2]
      exact Or.inl rfl
  · rw [if_neg h1]
    exact Or.inl rfl

theorem bool_eq_false_of_ne_true {b : Bool} (h : ¬ b = true) : b = false := by
  cases b
  · rfl
  · exact absurd rfl h

theorem seaFlowFile_old {p : Str}
    (hold : matchOldFile (remove_ext (parse_path p).file) = true) :
    seaFlowFile p = .ok ⟨p, (parse_path p).file, remove_ext (parse_path p).file, none,
      (parse_path p).dayofyear, [],
      mkPathId (parse_path p).dayofyear (remove_ext (parse_path p).file),
      mkPathId (parse_path p).dayofyear (remove_ext (parse_path p).file)⟩ := by
  have hnew : newShape? (remove_ext (parse_path p).file) = none := by
    cases hn : newShape? (remove_ext (parse_path p).file) with
    | none => rfl
    | some st => rw [newShape?_not_old hn] at hold; cases hold
  simp only [seaFlowFile, hold, hnew, Option.isSome_none, Bool.or_false, Bool.not_true,
    Bool.false_eq_true, if_false, ite_false, ite_true, if_true]

theorem seaFlowFile_new {p : Str} {st : NewStamp}
    (hshape : newShape? (remove_ext (parse_path p).file) = some st)
    (hvalid : isoValid st = true) :
    seaFlowFile p = .ok ⟨p, (parse_path p).file, remove_ext (parse_path p).file, some st,
      (parse_path p).dayofyear, create_dayofyear_directory (some st),
      create_dayofyear_directory (some st) ++ '/' :: remove_ext (parse_path p).file,
      mkPathId (parse_path p).dayofyear (remove_ext (parse_path p).file)⟩ := by
  have hold := newShape?_not_old hshape
  have hdff : date_from_filename (remove_ext (parse_path p).file) = some st := by
    unfold date_from_filename
    rw [basename_no_slash (newShape?_no_slash hshape),
      remove_ext_no_dot (newShape?_no_dot hshape)]
    simp [hshape, hvalid]
  simp only [seaFlowFile, hshape, hold, hdff, Option.isSome_some, Bool.false_or,
    Bool.not_true, Bool.false_eq_true, if_false, ite_false, ite_true, if_true]

theorem seaFlowFile_new_invalid {p : Str} {st : NewStamp}
    (hshape : newShape? (remove_ext (parse_path p).file) = some st)
    (hbad : isoValid st = false) :
    seaFlowFile p = .error .invalidTimestamp := by
  have hold := newShape?_not_old hshape
  have hdff : date_from_filename (remove_ext (parse_path p).file) = none := by
    unfold date_from_filename
    rw [basename_no_slash (newShape?_no_slash hshape),
      remove_ext_no_dot (newShape?_no_dot hshape)]
    simp [hshape, hbad]
  simp only [seaFlowFile, hshape, hold, hdff, Option.isSome_some, Bool.false_or,
    Bool.not_true, Bool.false_eq_true, if_false, ite_false, ite_true, if_true]

theorem seaFlowFile_unrecognized {p : Str}
    (hold : matchOldFile (remove_ext (parse_path p).file) = false)
    (hnew : newShape? (remove_ext (parse_path p).file) = none) :
    seaFlowFile p = .error .unrecognized := by
  simp only [seaFlowFile, hold, hnew, Option.isSome_none, Bool.or_false, Bool.not_false,
    if_true, ite_true]

theorem seaFlowFile_ok_elim {p : Str} {f : SeaFlowFile} (h : seaFlowFile p = .ok f) :
    (∃ st : NewStamp, newShape? (remove_ext (parse_path p).file) = some st ∧
      isoValid st = true ∧
      f = ⟨p, (parse_path p).file, remove_ext (parse_path p).file, some st,
        (parse_path p).dayofyear, create_dayofyear_directory (some st),
        create_dayofyear_directory (some st) ++ '/' :: remove_ext (parse_path p).file,
        mkPathId (parse_path p).dayofyear (remove_ext (parse_path p).file)⟩) ∨
    (matchOldFile (remove_ext (parse_path p).file) = true ∧
      f = ⟨p, (parse_path p).file, remove_ext (parse_path p).file, none,
        (parse_path p).dayofyear, [],
        mkPathId (parse_path p).dayofyear (remove_ext (parse_path p).file),
        mkPathId (parse_path p).dayofyear (remove_ext (parse_path p).file)⟩) := by
  by_cases hold : matchOldFile (remove_ext (parse_path p).file) = true
  · right
    refine ⟨hold, ?_⟩
    rw [seaFlowFile_old hold] at h
    exact (Except.ok.inj h).symm
  · left
    have hold' := bool_eq_false_of_ne_true hold
    cases hn : newShape? (remove_ext (parse_path p).file) with
    | none =>
      rw [seaFlowFile_unrecognized hold' hn] at h
      cases h
    | some st =>
      cases hv : isoValid st with
      | false =>
        rw [seaFlowFile_new_invalid hn hv] at h
        cases h
      | true =>
        refine ⟨st, rfl, hv, ?_⟩
        rw [seaFlowFile_new hn hv] at h
        exact (Except.ok.inj h).symm

theorem seaFlowFile_err_elim {p : Str} {e : FileError} (h : seaFlowFile p = .error e) :
    (e = .unrecognized ∧ matchOldFile (remove_ext (parse_path p).file) = false ∧
      newShape? (remove_ext (parse_path p).file) = none) ∨
    (e = .invalidTimestamp ∧ ∃ st : NewStamp,
      newShape? (remove_ext (parse_path p).file) = some st ∧ isoValid st = false) := by
  by_cases hold : matchOldFile (remove_ext (parse_path p).file) = true
  · rw [seaFlowFile_old hold] at h
    cases h
  · have hold' := bool_eq_false_of_ne_true hold
    cases hn : newShape? (remove_ext (parse_path p).file) with
    | none =>
      rw [seaFlowFile_unrecognized hold' hn] at h
      exact Or.inl ⟨(Except.error.inj h).symm, hold', rfl⟩
    | some st =>
      cases hv : isoValid st with
      | false =>
        rw [seaFlowFile_new_invalid hn hv] at h
        exact Or.inr ⟨(Except.error.inj h).symm, st, rfl, hv⟩
      | true =>
        rw [seaFlowFile_new hn hv] at h
        cases h

theorem matchOldFile_no_slash {l : Str} (h : matchOldFile l = true) : '/' ∉ l := by
  obtain ⟨d, rfl, _, hdig⟩ := matchOldFile_elim h
  intro hm
  rcases List.mem_append.mp hm with hm | hm
  · exact all_digits_not_mem hdig (by decide) hm
  · exact absurd hm (by decide)

theorem isEmpty_false_of_ne_nil {l : Str} (h : l ≠ []) : l.isEmpty = false := by
  cases l with
  | nil => exact absurd rfl h
  | cons c t => rfl

/-- CLAIM C3 (counterexample): the claim says a bare digit string with no
extension is recognized as Old-style; the code's `old_file_re` is
`^\d+\.evt$` on the extension-free name, so `"42"` is not recognized at
all and the constructor rejects it. -/
theorem c3_counterexample :
    is_old_style ("42".toList) = false ∧
    seaFlowFile ("42".toList) = .error .unrecognized :=
  ⟨rfl, rfl⟩

/-- CLAIM C3 (amended): a leaf name is Old-style exactly when the digits
are followed by the literal `.evt` (optionally `.gz`-compressed); bare
digits, with or without `.gz`, are not recognized. -/
theorem c3_old_style_grammar (d : Str) (hne : 1 ≤ d.length)
    (hdig : d.all Char.isDigit = true) :
    is_old_style (d ++ ".evt".toList) = true ∧
    is_old_style (d ++ ".evt.gz".toList) = true ∧
    is_old_style d = false ∧
    is_old_style (d ++ ".gz".toList) = false := by
  unfold is_old_style
  refine ⟨?_, ?_, ?_, ?_⟩
  · rw [remove_ext_digits_evt hne hdig]
    exact matchOldFile_intro hne hdig
  · rw [remove_ext_digits_evt_gz hne hdig]
    exact matchOldFile_intro hne hdig
  · rw [remove_ext_digits d hdig]
    exact matchOldFile_digits hdig
  · rw [remove_ext_gz d, remove_ext_digits d hdig]
    exact matchOldFile_digits hdig

/-- Witness for the amended C3 at `d = "42"`. -/
theorem c3_old_style_grammar_witness :
    is_old_style ("42".toList ++ ".evt".toList) = true ∧
    is_old_style ("42".toList ++ ".evt.gz".toList) = true ∧
    is_old_style ("42".toList) = false ∧
    is_old_style ("42".toList ++ ".gz".toList) = false :=
  c3_old_style_grammar ("42".toList) (by decide) (by decide)

/-- CLAIM C7: a leaf name matching the New-style shape whose date or time
is impossible makes identity resolution fail with the hard
`InvalidTimestamp` error (the wrapped `ValueError`), a failure distinct
from the `Unrecognized` rejection of names matching neither grammar. -/
theorem c7_invalid_timestamp (p : Str) (st : NewStamp)
    (hshape : newShape? (remove_ext (parse_path p).file) = some st)
    (hbad : isoValid st = false) :
    seaFlowFile p = .error .invalidTimestamp ∧
    FileError.invalidTimestamp ≠ FileError.unrecognized :=
  ⟨seaFlowFile_new_invalid hshape hbad, by decide⟩

/-- Witness for C7: month 13 (`2018-13-01T00-00-00+00-00`) and second 99
(`2018-03-23T00-00-99+00-00`) both fail with `InvalidTimestamp`. -/
theorem c7_invalid_timestamp_witness :
    (seaFlowFile ("2018-13-01T00-00-00+00-00".toList) = .error .invalidTimestamp ∧
      FileError.invalidTimestamp ≠ FileError.unrecognized) ∧
    (seaFlowFile ("2018-03-23T00-00-99+00-00".toList) = .error .invalidTimestamp ∧
      FileError.invalidTimestamp ≠ FileError.unrecognized) :=
  ⟨c7_invalid_timestamp ("2018-13-01T00-00-00+00-00".toList)
      ⟨2018, 13, 1, 0, 0, 0, false, 0, 0⟩ rfl (by decide),
   c7_invalid_timestamp ("2018-03-23T00-00-99+00-00".toList)
      ⟨2018, 3, 23, 0, 0, 99, false, 0, 0⟩ rfl (by decide)⟩

theorem mapFilesM_cons (f : Str) (rest : List Str) :
    mapFilesM (f :: rest) =
      match seaFlowFile f with
      | .error e => .error e
      | .ok s =>
        match mapFilesM rest with
        | .error e => .error e
        | .ok ss => .ok (s :: ss) := rfl

theorem mapFilesM_error {files : List Str} {p : Str} (hp : p ∈ files) {e : FileError}
    (he : seaFlowFile p = .error e) : ∃ e', mapFilesM files = .error e' := by
  induction files with
  | nil => cases hp
  | cons f rest ih =>
    rw [mapFilesM_cons]
    cases hf : seaFlowFile f with
    | error e' => exact ⟨e', rfl⟩
    | ok s =>
      rcases List.mem_cons.mp hp with rfl | hp'
      · rw [he] at hf
        cases hf
      · obtain ⟨e', he'⟩ := ih hp'
        exact ⟨e', by rw [he']⟩

/-- CLAIM C4 (counterexample): the claim says `sortChronological` excludes
paths that fail identity resolution; in the code `sorted_files` constructs
a `SeaFlowFile` for every path with no handler, so one stray file makes
the whole call raise. -/
theorem c4_counterexample :
    seaFlowFile ("README.md".toList) = .error .unrecognized ∧
    sorted_files ["2018_100/1.evt".toList, "README.md".toList] =
      .error (.fileError .unrecognized) :=
  ⟨rfl, rfl⟩

/-- CLAIM C4 (amended): `filterByKind` (`keep_evt_files`) never raises —
it silently drops any path whose identity fails to resolve and returns a
subset of its input — but `sortChronological` (`sorted_files`) propagates
the `FileError` as soon as any input path fails identity resolution. -/
theorem c4_batch_error_policy (files : List Str) (opp : Bool) (p : Str) (e : FileError)
    (hp : p ∈ files) (he : seaFlowFile p = .error e) :
    p ∉ keep_evt_files files opp ∧
    (∀ q ∈ keep_evt_files files opp, q ∈ files ∧ (seaFlowFile q).isOk = true) ∧
    ∃ e', sorted_files files = .error (.fileError e') := by
  refine ⟨?_, ?_, ?_⟩
  · intro hmem
    have := List.of_mem_filter hmem
    rw [he] at this
    cases this
  · intro q hq
    refine ⟨List.mem_of_mem_filter hq, ?_⟩
    have := List.of_mem_filter hq
    cases hs : seaFlowFile q with
    | error e' => rw [hs] at this; cases this
    | ok s => rfl
  · obtain ⟨e', he'⟩ := mapFilesM_error hp he
    exact ⟨e', by simp [sorted_files, he']⟩

/-- Witness for the amended C4: `README.md` fails resolution, is dropped
by `keep_evt_files`, and makes `sorted_files` fail. -/
theorem c4_batch_error_policy_witness :
    ("README.md".toList ∉ keep_evt_files ["2018_100/1.evt".toList, "README.md".toList] false) ∧
    (∀ q ∈ keep_evt_files ["2018_100/1.evt".toList, "README.md".toList] false,
      q ∈ ["2018_100/1.evt".toList, "README.md".toList] ∧ (seaFlowFile q).isOk = true) ∧
    ∃ e', sorted_files ["2018_100/1.evt".toList, "README.md".toList] =
      .error (.fileError e') :=
  c4_batch_error_policy ["2018_100/1.evt".toList, "README.md".toList] false
    ("README.md".toList) .unrecognized (by decide) rfl

theorem endsWith_append (l suf : Str) : endsWith (l ++ suf) suf = true := by
  unfold endsWith
  simp only [List.length_append, Bool.and_eq_true, decide_eq_true_eq, beq_iff_eq]
  refine ⟨by omega, ?_⟩
  have h : l.length + suf.length - suf.length = l.length := by omega
  rw [h, List.drop_left]

theorem parse_path_nil : parse_path [] = ⟨[], []⟩ := rfl

/-- CLAIM C10: appending `.gz` to the leaf filename of a recognized path
leaves the canonical id, the path-derived id, the date, the
extension-free base and the sort key unchanged; the resulting file
reports `isgz`.  The compressed path `q` is characterized by its parsed
parts: same bucket directory, filename with `.gz` appended. -/
theorem c10_gz_identity (p q : Str) (f : SeaFlowFile)
    (hp : seaFlowFile p = .ok f)
    (hq : parse_path q = ⟨(parse_path p).dayofyear, (parse_path p).file ++ ".gz".toList⟩) :
    ∃ g : SeaFlowFile, seaFlowFile q = .ok g ∧
      g.file_id = f.file_id ∧
      g.path_file_id = f.path_file_id ∧
      sort_key g = sort_key f ∧
      g.date = f.date ∧
      g.filename_noext = f.filename_noext ∧
      isgz g = true ∧
      (endsWith f.filename (".gz".toList) = false → isgz f = false) := by
  have hqf : (parse_path q).file = (parse_path p).file ++ ".gz".toList := by rw [hq]
  have hqd : (parse_path q).dayofyear = (parse_path p).dayofyear := by rw [hq]
  have hnoext : remove_ext (parse_path q).file = remove_ext (parse_path p).file := by
    rw [hqf, remove_ext_gz]
  have hqne : q ≠ [] := by
    intro hqe
    rw [hqe, parse_path_nil] at hqf
    exact absurd (congrArg List.length hqf.symm) (by simp)
  rcases seaFlowFile_ok_elim hp with ⟨st, hshape, hvalid, rfl⟩ | ⟨hold, rfl⟩
  · have hshape' : newShape? (remove_ext (parse_path q).file) = some st := by
      rw [hnoext]
      exact hshape
    refine ⟨_, seaFlowFile_new hshape' hvalid, ?_, ?_, ?_, ?_, ?_, ?_, ?_⟩
    · simp only [hnoext]
    · simp only [hnoext, hqd]
    · simp only [sort_key, hnoext, hqd]
    · rfl
    · simp only [hnoext]
    · simp only [isgz, isEmpty_false_of_ne_nil hqne, Bool.not_false, Bool.true_and, hqf]
      exact endsWith_append _ _
    · intro hng
      simp only [isgz, hng, Bool.and_false]
  · have hold' : matchOldFile (remove_ext (parse_path q).file) = true := by
      rw [hnoext]
      exact hold
    refine ⟨_, seaFlowFile_old hold', ?_, ?_, ?_, ?_, ?_, ?_, ?_⟩
    · simp only [hnoext, hqd]
    · simp only [hnoext, hqd]
    · simp only [sort_key, hnoext, hqd]
    · rfl
    · simp only [hnoext]
    · simp only [isgz, isEmpty_false_of_ne_nil hqne, Bool.not_false, Bool.true_and, hqf]
      exact endsWith_append _ _
    · intro hng
      simp only [isgz, hng, Bool.and_false]

/-- Witness for C10: the old-style `2018_100/42.evt` and its compressed
variant, and the new-style `2018_082/2018-03-23T00-00-00+00-00`
likewise. -/
theorem c10_gz_identity_witness :
    (∃ g : SeaFlowFile, seaFlowFile ("2018_100/42.evt.gz".toList) = .ok g ∧
      g.file_id = (fileOfD ("2018_100/42.evt".toList)).file_id ∧
      g.path_file_id = (fileOfD ("2018_100/42.evt".toList)).path_file_id ∧
      sort_key g = sort_key (fileOfD ("2018_100/42.evt".toList)) ∧
      g.date = (fileOfD ("2018_100/42.evt".toList)).date ∧
      g.filename_noext = (fileOfD ("2018_100/42.evt".toList)).filename_noext ∧
      isgz g = true ∧
      (endsWith (fileOfD ("2018_100/42.evt".toList)).filename (".gz".toList) = false →
        isgz (fileOfD ("2018_100/42.evt".toList)) = false)) := by
  exact c10_gz_identity ("2018_100/42.evt".toList) ("2018_100/42.evt.gz".toList)
    (fileOfD ("2018_100/42.evt".toList)) rfl rfl

/-- CLAIM C5 (counterexample): the claim says the New-style bucket is the
UTC-normalized `"{year}_{dayOfYear:03d}"`.  For the offset `+05-00` name
below the code writes bucket `2018_082` (the naive calendar fields, as
`dt.strftime('%j')` formats them), while the spec's UTC normalization
gives `2018_081`.  The parent directory `2018_999` confirms the bucket is
not taken from the path either. -/
theorem c5_counterexample :
    (seaFlowFile ("2018_999/2018-03-23T00-00-00+05-00".toList)).map SeaFlowFile.file_id =
      .ok ("2018_082/2018-03-23T00-00-00+05-00".toList) ∧
    (seaFlowFile ("2018_999/2018-03-23T00-00-00+05-00".toList)).map
      (fun f => f.date.map specUTCBucket) = .ok (some ("2018_081".toList)) ∧
    ("2018_082".toList : Str) ≠ "2018_081".toList :=
  ⟨rfl, rfl, by decide⟩

/-- CLAIM C5 (amended): for New-style files the bucket in `canonicalId` is
`"{year}_{dayOfYear:03d}"` computed from the parsed timestamp's literal
calendar fields (1-based day of year, the UTC offset is NOT applied), and
it is independent of the path's directories: any two paths with the same
leaf name get the same `file_id`.  For Old-style files (no date) the
bucket is the parent directory exactly when `parse_path` accepted it
(i.e. when it matches `^\d{1,4}_\d{1,3}$`), and otherwise the
`canonicalId` is the bare base name. -/
theorem c5_bucket_provenance (p q : Str) (f g : SeaFlowFile)
    (hp : seaFlowFile p = .ok f) (hq : seaFlowFile q = .ok g)
    (hfile : (parse_path q).file = (parse_path p).file) :
    (∀ st : NewStamp, f.date = some st →
      f.file_id = (natToStr st.year ++ '_' :: pad3 (dayOfYearNum st)) ++
        '/' :: f.filename_noext ∧
      g.file_id = f.file_id) ∧
    (f.date = none →
      ((parse_path p).dayofyear ≠ [] →
        f.file_id = (parse_path p).dayofyear ++ '/' :: f.filename_noext) ∧
      ((parse_path p).dayofyear = [] → f.file_id = f.filename_noext)) := by
  rcases seaFlowFile_ok_elim hp with ⟨st, hshape, hvalid, rfl⟩ | ⟨hold, rfl⟩
  · constructor
    · intro st' hst'
      have hst : st = st' := Option.some.inj hst'
      subst hst
      refine ⟨rfl, ?_⟩
      have hshape' : newShape? (remove_ext (parse_path q).file) = some st := by
        rw [hfile]
        exact hshape
      rw [seaFlowFile_new hshape' hvalid] at hq
      rw [← Except.ok.inj hq]
      simp only [hfile]
    · intro hnone
      cases hnone
  · constructor
    · intro st' hst'
      cases hst'
    · intro _
      constructor
      · intro hne
        simp only [mkPathId, isEmpty_false_of_ne_nil hne, Bool.false_eq_true, if_false,
          ite_false]
      · intro he
        simp only [mkPathId, he, List.isEmpty_nil, if_true, ite_true]

/-- Witness for the amended C5: the New-style file above gets its bucket
from the timestamp and the same id under a different directory, and the
Old-style `2018_100/42.evt` takes the path bucket while a bare `42.evt`
has none. -/
theorem c5_bucket_provenance_witness :
    ((fileOfD ("2018_999/2018-03-23T00-00-00+05-00".toList)).date =
        some ⟨2018, 3, 23, 0, 0, 0, false, 5, 0⟩ →
      (fileOfD ("2018_999/2018-03-23T00-00-00+05-00".toList)).file_id =
        (natToStr 2018 ++ '_' :: pad3 (dayOfYearNum ⟨2018, 3, 23, 0, 0, 0, false, 5, 0⟩)) ++
          '/' :: (fileOfD ("2018_999/2018-03-23T00-00-00+05-00".toList)).filename_noext ∧
      (fileOfD ("x/2018-03-23T00-00-00+05-00".toList)).file_id =
        (fileOfD ("2018_999/2018-03-23T00-00-00+05-00".toList)).file_id) ∧
    ((fileOfD ("2018_100/42.evt".toList)).date = none →
      ((parse_path ("2018_100/42.evt".toList)).dayofyear ≠ [] →
        (fileOfD ("2018_100/42.evt".toList)).file_id =
          (parse_path ("2018_100/42.evt".toList)).dayofyear ++
            '/' :: (fileOfD ("2018_100/42.evt".toList)).filename_noext)) := by
  have h1 := c5_bucket_provenance ("2018_999/2018-03-23T00-00-00+05-00".toList)
    ("x/2018-03-23T00-00-00+05-00".toList)
    (fileOfD ("2018_999/2018-03-23T00-00-00+05-00".toList))
    (fileOfD ("x/2018-03-23T00-00-00+05-00".toList)) rfl rfl rfl
  have h2 := c5_bucket_provenance ("2018_100/42.evt".toList) ("2018_100/42.evt".toList)
    (fileOfD ("2018_100/42.evt".toList)) (fileOfD ("2018_100/42.evt".toList)) rfl rfl rfl
  exact ⟨fun hd => h1.1 _ hd, fun hd hne => (h2.2 hd).1 hne⟩

theorem canonicalBucket_of_bucket {bucket noext : Str} (f : SeaFlowFile)
    (hfid : f.file_id = bucket ++ '/' :: noext) (hb : '/' ∉ bucket) (hn : '/' ∉ noext) :
    canonicalBucket f = bucket := by
  unfold canonicalBucket
  rw [hfid, splitOnC_append_sep _ hb, splitOnC_of_not_mem hn]
  simp

theorem canonicalBucket_of_plain {noext : Str} (f : SeaFlowFile)
    (hfid : f.file_id = noext) (hn : '/' ∉ noext) :
    canonicalBucket f = [] := by
  unfold canonicalBucket
  rw [hfid, splitOnC_of_not_mem hn]
  simp

/-- CLAIM C6: the sort key is `(year, dayOfYear, tiebreak)` where year and
day come from the canonical bucket when present, from the path-derived
bucket when the canonical bucket is absent, and are `(0, 0)` otherwise;
the tiebreak is the parsed integer of the digits part of the base name
for Old-style files and the base-name string for New-style files; and
`sorted_files` on `["2018_100/2.evt", "2018_050/1.evt"]` returns the
day-050 file first. -/
theorem c6_sort_key_chain (p : Str) (f : SeaFlowFile) (h : seaFlowFile p = .ok f) :
    (sort_key f =
      ((if canonicalBucket f ≠ [] then (parseBucket (canonicalBucket f)).1
        else if f.path_dayofyear ≠ [] then (parseBucket f.path_dayofyear).1 else 0),
       (if canonicalBucket f ≠ [] then (parseBucket (canonicalBucket f)).2
        else if f.path_dayofyear ≠ [] then (parseBucket f.path_dayofyear).2 else 0),
       (if f.date = none then
          FileKey.intKey (strToNat ((splitOnC '.' f.filename_noext).headD []))
        else FileKey.strKey f.filename_noext)) ∧
      (f.date = none → ∃ d : Str, f.filename_noext = d ++ ".evt".toList ∧
        (sort_key f).2.2 = FileKey.intKey (strToNat d))) ∧
    sorted_files ["2018_100/2.evt".toList, "2018_050/1.evt".toList] =
      .ok ["2018_050/1.evt".toList, "2018_100/2.evt".toList] := by
  refine ⟨?_, rfl⟩
  rcases seaFlowFile_ok_elim h with ⟨st, hshape, hvalid, rfl⟩ | ⟨hold, rfl⟩
  · have hdne := create_doy_some_ne_nil st
    have hdns := create_doy_some_no_slash st
    have hnns := newShape?_no_slash hshape
    have holdf := newShape?_not_old hshape
    have hcb := canonicalBucket_of_bucket
      (f := ⟨p, (parse_path p).file, remove_ext (parse_path p).file, some st,
        (parse_path p).dayofyear, create_dayofyear_directory (some st),
        create_dayofyear_directory (some st) ++ '/' :: remove_ext (parse_path p).file,
        mkPathId (parse_path p).dayofyear (remove_ext (parse_path p).file)⟩)
      rfl hdns hnns
    constructor
    · rw [hcb]
      simp [sort_key, isEmpty_false_of_ne_nil hdne, holdf, hdne]
    · intro hnone
      cases hnone
  · have hnns := matchOldFile_no_slash hold
    obtain ⟨d, hd, hlen, hdig⟩ := matchOldFile_elim hold
    have hkey : ∀ g : SeaFlowFile,
        g.filename_noext = remove_ext (parse_path p).file →
        matchOldFile g.filename_noext = true →
        (sort_key g).2.2 = FileKey.intKey (strToNat d) := by
      intro g hgne hgold
      simp only [sort_key, hgold, if_true, ite_true]
      rw [hgne, hd]
      have hdd : '.' ∉ d := all_digits_not_mem hdig (by decide)
      have : d ++ ".evt".toList = d ++ '.' :: "evt".toList := rfl
      rw [this, splitOnC_append_sep _ hdd]
      simp
    rcases parse_path_dayofyear_cases p with hpd | hpd
    · have hfid : mkPathId (parse_path p).dayofyear (remove_ext (parse_path p).file) =
          remove_ext (parse_path p).file := by
        rw [hpd]
        rfl
      have hcb := canonicalBucket_of_plain
        (f := ⟨p, (parse_path p).file, remove_ext (parse_path p).file, none,
          (parse_path p).dayofyear, [],
          mkPathId (parse_path p).dayofyear (remove_ext (parse_path p).file),
          mkPathId (parse_path p).dayofyear (remove_ext (parse_path p).file)⟩)
        hfid hnns
      refine ⟨?_, fun _ => ⟨d, hd, hkey _ rfl hold⟩⟩
      rw [hcb]
      simp [sort_key, hold, hpd]
    · have hpdne := matchDayofyearDir_ne_nil hpd
      have hpdns := matchDayofyearDir_no_slash hpd
      have hfid : mkPathId (parse_path p).dayofyear (remove_ext (parse_path p).file) =
          (parse_path p).dayofyear ++ '/' :: remove_ext (parse_path p).file := by
        simp only [mkPathId, isEmpty_false_of_ne_nil hpdne, Bool.false_eq_true, if_false,
          ite_false]
      have hcb := canonicalBucket_of_bucket
        (f := ⟨p, (parse_path p).file, remove_ext (parse_path p).file, none,
          (parse_path p).dayofyear, [],
          mkPathId (parse_path p).dayofyear (remove_ext (parse_path p).file),
          mkPathId (parse_path p).dayofyear (remove_ext (parse_path p).file)⟩)
        hfid hpdns hnns
      refine ⟨?_, fun _ => ⟨d, hd, hkey _ rfl hold⟩⟩
      rw [hcb]
      simp [sort_key, hold, hpdne, isEmpty_false_of_ne_nil hpdne]

/-- Witness for C6 at the old-style file `2018_100/42.evt`. -/
theorem c6_sort_key_chain_witness :
    (sort_key (fileOfD ("2018_100/42.evt".toList)) =
      ((if canonicalBucket (fileOfD ("2018_100/42.evt".toList)) ≠ [] then
          (parseBucket (canonicalBucket (fileOfD ("2018_100/42.evt".toList)))).1
        else if (fileOfD ("2018_100/42.evt".toList)).path_dayofyear ≠ [] then
          (parseBucket (fileOfD ("2018_100/42.evt".toList)).path_dayofyear).1 else 0),
       (if canonicalBucket (fileOfD ("2018_100/42.evt".toList)) ≠ [] then
          (parseBucket (canonicalBucket (fileOfD ("2018_100/42.evt".toList)))).2
        else if (fileOfD ("2018_100/42.evt".toList)).path_dayofyear ≠ [] then
          (parseBucket (fileOfD ("2018_100/42.evt".toList)).path_dayofyear).2 else 0),
       (if (fileOfD ("2018_100/42.evt".toList)).date = none then
          FileKey.intKey (strToNat
            ((splitOnC '.' (fileOfD ("2018_100/42.evt".toList)).filename_noext).headD []))
        else FileKey.strKey (fileOfD ("2018_100/42.evt".toList)).filename_noext)) ∧
      ((fileOfD ("2018_100/42.evt".toList)).date = none → ∃ d : Str,
        (fileOfD ("2018_100/42.evt".toList)).filename_noext = d ++ ".evt".toList ∧
        (sort_key (fileOfD ("2018_100/42.evt".toList))).2.2 =
          FileKey.intKey (strToNat d))) ∧
    sorted_files ["2018_100/2.evt".toList, "2018_050/1.evt".toList] =
      .ok ["2018_050/1.evt".toList, "2018_100/2.evt".toList] :=
  c6_sort_key_chain ("2018_100/42.evt".toList) (fileOfD ("2018_100/42.evt".toList)) rfl

theorem lexLE_total : ∀ a b : Str, lexLE a b = true ∨ lexLE b a = true
  | [], _ => Or.inl rfl
  | _ :: _, [] => Or.inr rfl
  | x :: xs, y :: ys => by
    rcases lt_trichotomy x y with hxy | rfl | hyx
    · left
      simp [lexLE, hxy]
    · rcases lexLE_total xs ys with h | h
      · left
        simp [lexLE, h]
      · right
        simp [lexLE, h]
    · right
      simp [lexLE, hyx]

theorem lexLE_trans : ∀ {a b c : Str},
    lexLE a b = true → lexLE b c = true → lexLE a c = true
  | [], _, _, _, _ => rfl
  | _ :: _, [], _, h, _ => by simp [lexLE] at h
  | _ :: _, _ :: _, [], _, h => by simp [lexLE] at h
  | x :: xs, y :: ys, z :: zs, h1, h2 => by
    simp only [lexLE, Bool.or_eq_true, Bool.and_eq_true, decide_eq_true_eq] at h1 h2 ⊢
    rcases h1 with h1 | ⟨rfl, h1⟩
    · rcases h2 with h2 | ⟨rfl, h2⟩
      · exact Or.inl (lt_trans h1 h2)
      · exact Or.inl h1
    · rcases h2 with h2 | ⟨rfl, h2⟩
      · exact Or.inl h2
      · exact Or.inr ⟨rfl, lexLE_trans h1 h2⟩

theorem fileKeyLE_total : ∀ a b : FileKey, fileKeyLE a b = true ∨ fileKeyLE b a = true
  | .intKey a, .intKey b => by
    simp only [fileKeyLE, decide_eq_true_eq]
    omega
  | .strKey a, .strKey b => lexLE_total a b
  | .intKey _, .strKey _ => Or.inl rfl
  | .strKey _, .intKey _ => Or.inr rfl

theorem fileKeyLE_trans : ∀ {a b c : FileKey},
    fileKeyLE a b = true → fileKeyLE b c = true → fileKeyLE a c = true
  | .intKey _, .intKey _, .intKey _, h1, h2 => by
    simp only [fileKeyLE, decide_eq_true_eq] at h1 h2 ⊢
    omega
  | .intKey _, .intKey _, .strKey _, _, _ => rfl
  | .intKey _, .strKey _, .intKey _, _, h2 => by simp [fileKeyLE] at h2
  | .intKey _, .strKey _, .strKey _, _, _ => rfl
  | .strKey _, .intKey _, _, h1, _ => by simp [fileKeyLE] at h1
  | .strKey _, .strKey _, .intKey _, _, h2 => by simp [fileKeyLE] at h2
  | .strKey _, .strKey _, .strKey _, h1, h2 => lexLE_trans h1 h2

theorem keyLE_total (a b : Nat × Nat × FileKey) : keyLE a b = true ∨ keyLE b a = true := by
  unfold keyLE
  simp only [Bool.or_eq_true, Bool.and_eq_true, decide_eq_true_eq]
  rcases Nat.lt_trichotomy a.1 b.1 with h | h | h
  · exact Or.inl (Or.inl h)
  · rcases Nat.lt_trichotomy a.2.1 b.2.1 with h2 | h2 | h2
    · exact Or.inl (Or.inr ⟨h, Or.inl h2⟩)
    · rcases fileKeyLE_total a.2.2 b.2.2 with h3 | h3
      · exact Or.inl (Or.inr ⟨h, Or.inr ⟨h2, h3⟩⟩)
      · exact Or.inr (Or.inr ⟨h.symm, Or.inr ⟨h2.symm, h3⟩⟩)
    · exact Or.inr (Or.inr ⟨h.symm, Or.inl h2⟩)
  · exact Or.inr (Or.inl h)

theorem keyLE_trans {a b c : Nat × Nat × FileKey}
    (h1 : keyLE a b = true) (h2 : keyLE b c = true) : keyLE a c = true := by
  unfold keyLE at h1 h2 ⊢
  simp only [Bool.or_eq_true, Bool.and_eq_true, decide_eq_true_eq] at h1 h2 ⊢
  rcases h1 with h1 | ⟨e1, h1⟩
  · rcases h2 with h2 | ⟨e2, h2⟩
    · exact Or.inl (by omega)
    · exact Or.inl (by omega)
  · rcases h2 with h2 | ⟨e2, h2⟩
    · exact Or.inl (by omega)
    · refine Or.inr ⟨by omega, ?_⟩
      rcases h1 with h1 | ⟨f1, h1⟩
      · rcases h2 with h2 | ⟨f2, h2⟩
        · exact Or.inl (by omega)
        · exact Or.inl (by omega)
      · rcases h2 with h2 | ⟨f2, h2⟩
        · exact Or.inl (by omega)
        · exact Or.inr ⟨by omega, fileKeyLE_trans h1 h2⟩

theorem fileRel_total (a b : SeaFlowFile) : fileRel a b ∨ fileRel b a :=
  keyLE_total (sort_key a) (sort_key b)

theorem fileRel_trans {a b c : SeaFlowFile} (h1 : fileRel a b) (h2 : fileRel b c) :
    fileRel a c :=
  keyLE_trans h1 h2

theorem fileOfD_eq {p : Str} {f : SeaFlowFile} (h : seaFlowFile p = .ok f) :
    fileOfD p = f := by
  unfold fileOfD
  rw [h]

theorem isOk_elim {p : Str} (h : (seaFlowFile p).isOk = true) :
    ∃ f, seaFlowFile p = .ok f := by
  cases hs : seaFlowFile p with
  | error e =>
    rw [hs] at h
    cases h
  | ok f => exact ⟨f, rfl⟩

theorem fileOfD_path {p : Str} (h : (seaFlowFile p).isOk = true) :
    (fileOfD p).path = p := by
  obtain ⟨f, hf⟩ := isOk_elim h
  rw [fileOfD_eq hf]
  rcases seaFlowFile_ok_elim hf with ⟨st, _, _, rfl⟩ | ⟨_, rfl⟩ <;> rfl

theorem mapFilesM_ok {files : List Str} (h : ∀ p ∈ files, (seaFlowFile p).isOk = true) :
    mapFilesM files = .ok (files.map fileOfD) := by
  induction files with
  | nil => rfl
  | cons f rest ih =>
    obtain ⟨s, hs⟩ := isOk_elim (h f (List.mem_cons_self f rest))
    rw [mapFilesM_cons, hs, ih (fun q hq => h q (List.mem_cons_of_mem f hq))]
    rw [List.map_cons, fileOfD_eq hs]

theorem filterIdsM_cons (f : Str) (rest : List Str) :
    filterIdsM (f :: rest) =
      match seaFlowFile f with
      | .error e => .error e
      | .ok s =>
        match filterIdsM rest with
        | .error e => .error e
        | .ok ids => .ok (s.file_id :: ids) := rfl

theorem filterIdsM_ok {files : List Str} (h : ∀ p ∈ files, (seaFlowFile p).isOk = true) :
    filterIdsM files = .ok (files.map fileIdD) := by
  induction files with
  | nil => rfl
  | cons f rest ih =>
    obtain ⟨s, hs⟩ := isOk_elim (h f (List.mem_cons_self f rest))
    rw [filterIdsM_cons, hs, ih (fun q hq => h q (List.mem_cons_of_mem f hq))]
    rw [List.map_cons]
    unfold fileIdD
    rw [fileOfD_eq hs]

theorem keepMatching_cons (ids : List Str) (f : Str) (rest : List Str) :
    keepMatching ids (f :: rest) =
      match seaFlowFile f with
      | .error e => .error e
      | .ok s =>
        match keepMatching ids rest with
        | .error e => .error e
        | .ok keep => .ok (if ids.contains s.file_id then f :: keep else keep) := rfl

theorem keepMatching_ok {ids : List Str} {files : List Str}
    (h : ∀ p ∈ files, (seaFlowFile p).isOk = true) :
    keepMatching ids files =
      .ok (files.filter fun t => ids.contains (fileIdD t)) := by
  induction files with
  | nil => rfl
  | cons f rest ih =>
    obtain ⟨s, hs⟩ := isOk_elim (h f (List.mem_cons_self f rest))
    rw [keepMatching_cons, hs, ih (fun q hq => h q (List.mem_cons_of_mem f hq))]
    rw [List.filter_cons]
    have hid : fileIdD f = s.file_id := by
      unfold fileIdD
      rw [fileOfD_eq hs]
    rw [hid]

theorem sorted_files_ok {files : List Str} (h : ∀ p ∈ files, (seaFlowFile p).isOk = true)
    (hnc : hasClash (files.map fileOfD) = false) :
    sorted_files files =
      .ok ((List.insertionSort fileRel (files.map fileOfD)).map SeaFlowFile.path) := by
  unfold sorted_files
  simp only [mapFilesM_ok h, hnc, Bool.false_eq_true, if_false, ite_false]

/-- CLAIM C8 (counterexample): the claim promises a sorted result for
every pair of path lists.  Here both primary entries resolve — the
Old-style `2018_082/42.evt` (path bucket) and the New-style
`x/2018-03-23T00-00-00+00-00` (timestamp bucket, March 23 is day 82) —
and the filter set contains both ids, so both are kept; their sort keys
share `(2018, 82)` and `sorted()` must compare the int tiebreak `42`
with the str tiebreak, raising `TypeError` instead of returning. -/
theorem c8_counterexample :
    (∀ t ∈ ["2018_082/42.evt".toList, "x/2018-03-23T00-00-00+00-00".toList],
      (seaFlowFile t).isOk = true) ∧
    filtered_file_list
      ["2018_082/42.evt".toList, "x/2018-03-23T00-00-00+00-00".toList]
      ["2018_082/42.evt".toList, "x/2018-03-23T00-00-00+00-00".toList] =
      .error .typeError :=
  ⟨by decide, rfl⟩

/-- CLAIM C8 (amended): when all paths resolve AND no two kept entries
pair an Old-style with a New-style file in the same `(year, dayOfYear)`
bucket (such a pair makes Python's `sorted()` raise `TypeError` on the
int-vs-str tiebreaks), `filtered_file_list` returns exactly the entries
of the primary list whose `file_id` appears among the ids of the filter
list (as original path strings, stated as a permutation of the
corresponding filter of the primary list), sorted by sort key —
including when the filter-set paths differ syntactically from the
matching primary paths. -/
theorem c8_intersect_by_identity (T F : List Str)
    (hT : ∀ t ∈ T, (seaFlowFile t).isOk = true)
    (hF : ∀ t ∈ F, (seaFlowFile t).isOk = true)
    (hmix : ∀ a ∈ T.filter (fun t => (F.map fileIdD).contains (fileIdD t)),
      ∀ b ∈ T.filter (fun t => (F.map fileIdD).contains (fileIdD t)),
        keyClash (sortKeyD a) (sortKeyD b) = false) :
    ∃ res, filtered_file_list T F = .ok res ∧
      res.Perm (T.filter fun t => (F.map fileIdD).contains (fileIdD t)) ∧
      res.Pairwise (fun a b => keyLE (sortKeyD a) (sortKeyD b) = true) := by
  haveI instTot : IsTotal SeaFlowFile fileRel := ⟨fileRel_total⟩
  haveI instTrans : IsTrans SeaFlowFile fileRel := ⟨fun a b c => fileRel_trans⟩
  have hkeepOk : ∀ t ∈ T.filter (fun t => (F.map fileIdD).contains (fileIdD t)),
      (seaFlowFile t).isOk = true :=
    fun t ht => hT t (List.mem_of_mem_filter ht)
  have hflist : filtered_file_list T F =
      sorted_files (T.filter fun t => (F.map fileIdD).contains (fileIdD t)) := by
    unfold filtered_file_list
    simp only [filterIdsM_ok hF, keepMatching_ok hT]
  have hnc : hasClash ((T.filter fun t =>
      (F.map fileIdD).contains (fileIdD t)).map fileOfD) = false := by
    cases hc : hasClash ((T.filter fun t =>
        (F.map fileIdD).contains (fileIdD t)).map fileOfD) with
    | false => rfl
    | true =>
      exfalso
      simp only [hasClash, List.any_eq_true, List.mem_map] at hc
      obtain ⟨x, ⟨a, ha, rfl⟩, y, ⟨b, hb, rfl⟩, hxy⟩ := hc
      have h2 : keyClash (sort_key (fileOfD a)) (sort_key (fileOfD b)) = false :=
        hmix a ha b hb
      rw [h2] at hxy
      cases hxy
  have hsorted := sorted_files_ok hkeepOk hnc
  refine ⟨_, hflist.trans hsorted, ?_, ?_⟩
  · have hperm := List.perm_insertionSort fileRel
      ((T.filter fun t => (F.map fileIdD).contains (fileIdD t)).map fileOfD)
    have h2 := hperm.map SeaFlowFile.path
    have h3 : (((T.filter fun t => (F.map fileIdD).contains (fileIdD t)).map
        fileOfD).map SeaFlowFile.path) =
        T.filter fun t => (F.map fileIdD).contains (fileIdD t) := by
      rw [List.map_map]
      have hcong : ∀ t ∈ T.filter (fun t => (F.map fileIdD).contains (fileIdD t)),
          (SeaFlowFile.path ∘ fileOfD) t = id t :=
        fun t ht => fileOfD_path (hkeepOk t ht)
      rw [List.map_congr_left hcong, List.map_id]
    rw [h3] at h2
    exact h2
  · have hs := List.sorted_insertionSort fileRel
      ((T.filter fun t => (F.map fileIdD).contains (fileIdD t)).map fileOfD)
    rw [List.pairwise_map]
    refine hs.imp_of_mem (fun {a b} ha hb hab => ?_)
    have ha' := (List.perm_insertionSort fileRel _).mem_iff.mp ha
    have hb' := (List.perm_insertionSort fileRel _).mem_iff.mp hb
    obtain ⟨t, ht, rfl⟩ := List.mem_map.mp ha'
    obtain ⟨u, hu, rfl⟩ := List.mem_map.mp hb'
    rw [fileOfD_path (hkeepOk t ht), fileOfD_path (hkeepOk u hu)]
    exact hab

/-- Witness for the amended C8: three event files restricted by a filter
set whose paths carry a different directory prefix. -/
theorem c8_intersect_by_identity_witness :
    ∃ res, filtered_file_list
        ["2018_100/3.evt".toList, "2018_050/1.evt".toList, "2018_075/2.evt".toList]
        ["c2/2018_050/1.evt".toList, "c2/2018_075/2.evt".toList] = .ok res ∧
      res.Perm (["2018_100/3.evt".toList, "2018_050/1.evt".toList,
        "2018_075/2.evt".toList].filter fun t =>
          ((["c2/2018_050/1.evt".toList, "c2/2018_075/2.evt".toList].map fileIdD).contains
            (fileIdD t))) ∧
      res.Pairwise (fun a b => keyLE (sortKeyD a) (sortKeyD b) = true) :=
  c8_intersect_by_identity
    ["2018_100/3.evt".toList, "2018_050/1.evt".toList, "2018_075/2.evt".toList]
    ["c2/2018_050/1.evt".toList, "c2/2018_075/2.evt".toList]
    (by decide) (by decide) (by decide)

end Seaflowpy
